import Mathlib

/-!
Verification of the adaptive reading-schedule engine of the book-track
application.

The development shallowly embeds the page-scheduling code:

* `distributePagesAcrossDays`, `calculateDailyPages`, `calculateCatchUpPages`,
  `distributePagesSequentially` from `src/lib/readingCalculator.ts`
  (and the identical copy of the allocator in `src/convex/dateUtils.ts`);
* the redistribution logic `redistributePages` and
  `redistributePagesAfterUnread`, and the handlers `handleDayToggle` and
  `handleMissedToggle`, from `src/components/DaysView.tsx`;
* the catch-up `suggestion` computation from
  `src/components/CatchUpSuggestion.tsx`.

Calendar dates are embedded as integers (one unit = one day); the
`yyyy-MM-dd` storage keys of the source become the integers themselves, and
`eachDayOfInterval` becomes the inclusive integer range.  JavaScript
`Math.floor(a / b)` on nonnegative numbers is `Nat` division,
`Math.max(0, a - b)` is truncated `Nat` subtraction, and the JavaScript
`x || y` on an optional number (which treats 0 as falsy) is `jsOr`.
-/

/-- A reading-session row (table `readingSessions` in `src/convex/schema.ts`):
`isRead`, `isMissed`, a required `plannedPages` and an optional
`actualPages`. -/
structure Session where
  isRead : Bool
  isMissed : Bool
  plannedPages : ℕ
  actualPages : Option ℕ
deriving Repr, DecidableEq

/-- The state of one book's plan in `DaysView`: position `i` holds the session
for day `i` of the plan, or `none` when no session row exists yet for that
day (sessions are created lazily). -/
abbrev BookState := List (Option Session)

/-- The session shown for day `i` (`sessionsMap.get(dateKey)` in
`DaysView.tsx`): `none` when no row exists. -/
def dayAt (st : BookState) (i : ℕ) : Option Session :=
  (st.get? i).getD none

/-- JavaScript `a || b` for an optional number `a`: `a` when present and
nonzero, else `b` (JavaScript treats `0` and `undefined` as falsy). -/
def jsOr (a : Option ℕ) (b : ℕ) : ℕ :=
  match a with
  | some x => if x = 0 then b else x
  | none => b

/-- The pages the code counts for a read session:
`session.actualPages || session.plannedPages || 0`
(`DaysView.tsx` lines 436, 552; `books.ts` line 95). -/
def codeEffectivePages (s : Session) : ℕ :=
  jsOr s.actualPages s.plannedPages

/-- Modelled from the spec: `effectivePages(day) = actualPages ?? plannedPages`
(the glossary's nullish-coalescing definition, used to state claims C1 and C9
exactly as the spec words them; the source instead uses `jsOr`). -/
def specEffectivePages (s : Session) : ℕ :=
  s.actualPages.getD s.plannedPages

/-- `calculateDailyPages` from `src/lib/readingCalculator.ts`:
`Math.ceil(totalPages / days)`, for `days > 0`. -/
def calculateDailyPages (totalPages days : ℕ) : ℕ :=
  (totalPages + days - 1) / days

/-- Generic `Array.prototype.forEach((x, index) => ...)` collecting the
results; the first argument of `f` is the running index. -/
def forEachIdx (f : ℕ → α → β) : ℕ → List α → List β
  | _, [] => []
  | k, a :: as => f k a :: forEachIdx f (k + 1) as

/-- The inclusive ascending day range, by fuel: `rangeAux n s = [s, s+1, ..., s+n-1]`. -/
def rangeAux : ℕ → ℤ → List ℤ
  | 0, _ => []
  | n + 1, s => s :: rangeAux n (s + 1)

/-- `getAllDaysInRange(start, end)` = `eachDayOfInterval` from
`src/lib/dateUtils.ts`: the inclusive ascending list of days, empty when
`e < s`. -/
def getAllDaysInRange (s e : ℤ) : List ℤ :=
  rangeAux (e + 1 - s).toNat s

/-- `distributePagesAcrossDays` from `src/lib/readingCalculator.ts` (and the
identical function in `src/convex/dateUtils.ts`): `base = floor(total/n)`,
`remainder = total % n`, day at index `i` gets `base + 1` when
`i < remainder`, else `base`; returned as an association list in day order. -/
def distributePagesAcrossDays (totalPages : ℕ) (s e : ℤ) : List (ℤ × ℕ) :=
  let days := getAllDaysInRange s e
  let totalDays := days.length
  let pagesPerDay := totalPages / totalDays
  let remainder := totalPages % totalDays
  forEachIdx (fun index d => (d, pagesPerDay + if index < remainder then 1 else 0)) 0 days

/-- The filter deciding membership of `unreadDays` in `redistributePages`
(`DaysView.tsx` lines 443-450): not in `excludeDateKeys`, and the session, if
any, is neither read nor missed (a missing session counts as unread). -/
def unreadPred (st : BookState) (ex : List ℕ) (i : ℕ) : Bool :=
  !(ex.contains i) &&
    (match dayAt st i with
     | some s => !s.isRead && !s.isMissed
     | none => true)

/-- `unreadDays` of `redistributePages`: the plan's day indices passing
`unreadPred`, in ascending (date) order. -/
def unreadIndices (st : BookState) (ex : List ℕ) : List ℕ :=
  (List.range st.length).filter (unreadPred st ex)

/-- `totalPagesRead` as computed inside `redistributePages` (`DaysView.tsx`
lines 419-439): excluded days count `newActualPages` if they are the updated
day and 0 otherwise; read, non-missed sessions count `newActualPages` for the
updated day and `actualPages || plannedPages || 0` otherwise. -/
def redistContrib (st : BookState) (u a : ℕ) (ex : List ℕ) (i : ℕ) : ℕ :=
  if ex.contains i then (if i = u then a else 0)
  else
    match dayAt st i with
    | some s =>
        if s.isRead && !s.isMissed then (if i = u then a else codeEffectivePages s) else 0
    | none => 0

/-- The `totalPagesRead` loop of `redistributePages` summed over all plan
days. -/
def redistAccounted (st : BookState) (u a : ℕ) (ex : List ℕ) : ℕ :=
  ((List.range st.length).map (redistContrib st u a ex)).sum

/-- The write set of `redistributePages` (`DaysView.tsx` lines 454-491): when
`unreadDays` is nonempty, each unread day (with its `forEach` index) is
written `floor(remaining/n) + 1` pages if its index is below
`remaining % n`, else `floor(remaining/n)`; `remaining` is
`Math.max(0, totalPages - totalPagesRead)`. -/
def redistWrites (st : BookState) (totalPages u a : ℕ) (ex : List ℕ) : List (ℕ × ℕ) :=
  let remainingPages := totalPages - redistAccounted st u a ex
  let ud := unreadIndices st ex
  if ud.isEmpty then []
  else
    let pagesPerDay := remainingPages / ud.length
    let remainder := remainingPages % ud.length
    forEachIdx (fun index i => (i, pagesPerDay + if index < remainder then 1 else 0)) 0 ud

/-- Effect of one write of `redistributePages` on a day: an existing session
is updated with `isRead: false, isMissed: false, plannedPages: p`
(`actualPages` untouched); a missing session is created with those fields. -/
def writeCreate (os : Option Session) (p : ℕ) : Option Session :=
  match os with
  | some s => some { s with isRead := false, isMissed := false, plannedPages := p }
  | none => some { isRead := false, isMissed := false, plannedPages := p, actualPages := none }

/-- Effect of one write of `redistributePagesAfterUnread` on a day: identical
to `writeCreate` on an existing session, but a missing session gets no write
at all (that function has no `createSession` branch). -/
def writeUpdateOnly (os : Option Session) (p : ℕ) : Option Session :=
  match os with
  | some s => some { s with isRead := false, isMissed := false, plannedPages := p }
  | none => none

/-- Apply one `(dayIndex, plannedPages)` write to the state using the given
per-day write effect. -/
def applyWrite (mk : Option Session → ℕ → Option Session) (st : BookState) (w : ℕ × ℕ) :
    BookState :=
  st.set w.1 (mk (dayAt st w.1) w.2)

/-- `redistributePages` from `DaysView.tsx` (lines 411-494), as a state
transformer: compute the write set and apply it (updating existing sessions,
creating missing ones). -/
def redistributePages (st : BookState) (totalPages u a : ℕ) (ex : List ℕ) : BookState :=
  (redistWrites st totalPages u a ex).foldl (applyWrite writeCreate) st

/-- `totalPagesRead` inside `redistributePagesAfterUnread` (`DaysView.tsx`
lines 363-369): read, non-missed sessions of days other than the toggled day
count `actualPages || plannedPages || 0`. -/
def afterUnreadContrib (st : BookState) (u i : ℕ) : ℕ :=
  match dayAt st i with
  | some s => if s.isRead && !s.isMissed && i != u then codeEffectivePages s else 0
  | none => 0

/-- The `totalPagesRead` loop of `redistributePagesAfterUnread` summed over
all plan days. -/
def afterUnreadAccounted (st : BookState) (u : ℕ) : ℕ :=
  ((List.range st.length).map (afterUnreadContrib st u)).sum

/-- The `unreadDays` filter of `redistributePagesAfterUnread` (`DaysView.tsx`
lines 371-374): session absent-or-neither-read-nor-missed, or the toggled day
itself. -/
def unreadPredAfterUnread (st : BookState) (u i : ℕ) : Bool :=
  (match dayAt st i with
   | some s => !s.isRead && !s.isMissed
   | none => true) || i == u

/-- The write set of `redistributePagesAfterUnread` (`DaysView.tsx` lines
376-408): same base-plus-remainder split of
`Math.max(0, totalPages - totalPagesRead)` over its `unreadDays`. -/
def afterUnreadWrites (st : BookState) (totalPages u : ℕ) : List (ℕ × ℕ) :=
  let remainingPages := totalPages - afterUnreadAccounted st u
  let ud := (List.range st.length).filter (unreadPredAfterUnread st u)
  if ud.isEmpty then []
  else
    let pagesPerDay := remainingPages / ud.length
    let remainder := remainingPages % ud.length
    forEachIdx (fun index i => (i, pagesPerDay + if index < remainder then 1 else 0)) 0 ud

/-- `redistributePagesAfterUnread` from `DaysView.tsx` (lines 361-409): apply
the write set, updating existing sessions only (no creation). -/
def redistributePagesAfterUnread (st : BookState) (totalPages u : ℕ) : BookState :=
  (afterUnreadWrites st totalPages u).foldl (applyWrite writeUpdateOnly) st

/-- Replace day `u`'s session row. -/
def setDay (st : BookState) (u : ℕ) (os : Option Session) : BookState :=
  st.set u os

/-- `handleDayToggle` from `DaysView.tsx` (lines 215-270) as a state
transformer over the book's `totalPages` and the default `pagesPerDay`
(`calculateDailyPages(totalPages, totalDays)`).  Marking read passes
`actualPages || plannedPages || pagesPerDay` to `redistributePages` with the
toggled day excluded; unmarking read runs `redistributePagesAfterUnread`; a
day with no session is created read with `plannedPages = pagesPerDay`. -/
def handleDayToggle (st : BookState) (totalPages ppd u : ℕ) : BookState :=
  match dayAt st u with
  | some s =>
    if s.isRead then
      redistributePagesAfterUnread
        (setDay st u (some { s with isRead := false, isMissed := false })) totalPages u
    else
      redistributePages
        (setDay st u (some { s with isRead := true, isMissed := false }))
        totalPages u (jsOr s.actualPages (jsOr (some s.plannedPages) ppd)) [u]
  | none =>
      redistributePages
        (setDay st u (some { isRead := true, isMissed := false,
                             plannedPages := ppd, actualPages := none }))
        totalPages u ppd [u]

/-- `handleMissedToggle` from `DaysView.tsx` (lines 272-359): unmarking a
missed day redistributes (the inlined copy of `redistributePagesAfterUnread`);
marking a day missed performs no redistribution at all ("No redistribution
needed when marking as missed"), only the status write; a missing session is
created missed with `plannedPages = pagesPerDay`. -/
def handleMissedToggle (st : BookState) (totalPages ppd u : ℕ) : BookState :=
  match dayAt st u with
  | some s =>
    if s.isMissed then
      redistributePagesAfterUnread
        (setDay st u (some { s with isRead := false, isMissed := false })) totalPages u
    else
      setDay st u (some { s with isRead := false, isMissed := true })
  | none =>
      setDay st u (some { isRead := false, isMissed := true,
                          plannedPages := ppd, actualPages := none })

/-- One user action on the days grid. -/
inductive DayOp where
  | toggleRead (i : ℕ)
  | toggleMissed (i : ℕ)
deriving Repr, DecidableEq

/-- Apply one toggle through the corresponding handler. -/
def applyDayOp (totalPages ppd : ℕ) (st : BookState) (op : DayOp) : BookState :=
  match op with
  | .toggleRead i => handleDayToggle st totalPages ppd i
  | .toggleMissed i => handleMissedToggle st totalPages ppd i

/-- Run a sequence of toggles in order. -/
def runDayOps (totalPages ppd : ℕ) (st : BookState) (ops : List DayOp) : BookState :=
  ops.foldl (applyDayOp totalPages ppd) st

/-- The status of a day as the UI reads it: read when `isRead && !isMissed`,
missed when `isMissed`, otherwise unset (no session row means unset). -/
inductive DayStatus where
  | unset
  | read
  | missed
deriving Repr, DecidableEq

/-- Status of day `i` in a state. -/
def statusOf (st : BookState) (i : ℕ) : DayStatus :=
  match dayAt st i with
  | none => .unset
  | some s => if s.isRead && !s.isMissed then .read else if s.isMissed then .missed else .unset

/-- The `plannedPages` recorded for day `i` (0 when no session row exists). -/
def plannedOf (st : BookState) (i : ℕ) : ℕ :=
  match dayAt st i with
  | some s => s.plannedPages
  | none => 0

/-- The code-effective pages of day `i` (0 when no session row exists). -/
def effOf (st : BookState) (i : ℕ) : ℕ :=
  match dayAt st i with
  | some s => codeEffectivePages s
  | none => 0

/-- Sum of `plannedPages` over the unset (neither read nor missed) session
rows of the state. -/
def unsetContrib (os : Option Session) : ℕ :=
  match os with
  | some s => if !s.isRead && !s.isMissed then s.plannedPages else 0
  | none => 0

/-- Sum of `plannedPages` over the unset session rows of the state. -/
def unsetPlannedSum (st : BookState) : ℕ :=
  (st.map unsetContrib).sum

/-- Sum of the code-effective pages over the read, non-missed session rows
(the quantity `totalPagesRead` of `DaysView.tsx` lines 548-556 computes). -/
def readContrib (os : Option Session) : ℕ :=
  match os with
  | some s => if s.isRead && !s.isMissed then codeEffectivePages s else 0
  | none => 0

/-- Sum of code-effective pages over the read, non-missed session rows. -/
def codeReadEffSum (st : BookState) : ℕ :=
  (st.map readContrib).sum

/-- Modelled from the spec: the same read-day sum with the glossary's
`actualPages ?? plannedPages` in place of the code's `||` fallback. -/
def specReadContrib (os : Option Session) : ℕ :=
  match os with
  | some s => if s.isRead && !s.isMissed then specEffectivePages s else 0
  | none => 0

/-- Modelled from the spec: the read-day sum with `actualPages ?? plannedPages`. -/
def specReadEffSum (st : BookState) : ℕ :=
  (st.map specReadContrib).sum

/-- `totalPagesRead` of `DaysView.tsx` (lines 548-556) over a session list:
read, non-missed rows contribute `actualPages || plannedPages || 0`. -/
def daysViewTotalPagesRead (sessions : List Session) : ℕ :=
  (sessions.map (fun s =>
    if s.isRead && !s.isMissed then jsOr s.actualPages s.plannedPages else 0)).sum

/-- The progress numerator of `getBooks` in `src/convex/books.ts` (lines
93-98): every `isRead` row contributes `actualPages || plannedPages`. -/
def getBooksTotalPagesRead (sessions : List Session) : ℕ :=
  (sessions.map (fun s => if s.isRead then jsOr s.actualPages s.plannedPages else 0)).sum

/-- A session row as `CatchUpSuggestion.tsx` receives it, keyed by its day. -/
structure SessionRow where
  date : ℤ
  isRead : Bool
  isMissed : Bool
  plannedPages : ℕ
  actualPages : Option ℕ
deriving Repr, DecidableEq

/-- `totalPagesRead` of `CatchUpSuggestion.tsx` (lines 55-60): all `isRead`
rows, including missed ones, contribute `actualPages || plannedPages || 0`. -/
def suggestionTotalPagesRead (rows : List SessionRow) : ℕ :=
  (rows.map (fun r => if r.isRead then jsOr r.actualPages r.plannedPages else 0)).sum

/-- `totalPagesReadForCatchUp` of `CatchUpSuggestion.tsx` (lines 104-110):
read, non-missed rows contribute `actualPages || plannedPages`. -/
def totalPagesReadForCatchUp (rows : List SessionRow) : ℕ :=
  (rows.map (fun r => if r.isRead && !r.isMissed then jsOr r.actualPages r.plannedPages else 0)).sum

/-- `expectedPageByToday` of `CatchUpSuggestion.tsx` (lines 62-81): recompute
the original allocation `distributePagesAcrossDays(totalPages, start, end)`,
then walk the day range in order adding each day's allocated pages while the
day is on or before `today`, stopping at the first later day. -/
def expectedPageByToday (totalPages : ℕ) (s e today : ℤ) : ℕ :=
  let dist := distributePagesAcrossDays totalPages s e
  (((getAllDaysInRange s e).takeWhile (fun d => decide (d ≤ today))).map
    (fun d => (dist.lookup d).getD 0)).sum

/-- Modelled from the spec: the walk the spec describes for
`expectedCumulative(today)` — accumulate each day's current session
`plannedPages` (the post-redistribution value held in the rows) for days up
to and including today.  Stated only to compare with the code's
`expectedPageByToday`. -/
def specExpectedPageByToday (rows : List SessionRow) (s e today : ℤ) : ℕ :=
  (((getAllDaysInRange s e).takeWhile (fun d => decide (d ≤ today))).map
    (fun d => ((rows.find? (fun r => r.date == d)).map SessionRow.plannedPages).getD 0)).sum

/-- `getMissedDays` from `src/lib/readingCalculator.ts` (lines 119-134): days
of the range strictly before today whose date is not in the completed set. -/
def getMissedDays (s e : ℤ) (completedDates : List ℤ) (today : ℤ) : List ℤ :=
  (getAllDaysInRange s e).filter (fun d => decide (d < today) && !(completedDates.contains d))

/-- `calculateCatchUpPages` from `src/lib/readingCalculator.ts` (lines 63-73):
`remainingPages` when `remainingDays <= 0`, else
`Math.ceil(remainingPages / remainingDays)` (`Int.ediv` of
`remainingPages + remainingDays - 1` by `remainingDays` is that ceiling for a
positive divisor). -/
def calculateCatchUpPages (totalPages completedPages remainingDays : ℤ) : ℤ :=
  let remainingPages := totalPages - completedPages
  if remainingDays ≤ 0 then remainingPages
  else Int.ediv (remainingPages + remainingDays - 1) remainingDays

/-- The report computed by `CatchUpSuggestion.tsx`: nothing rendered, the
overdue banner (with its `suggestedPages`), or the catch-up banner with the
explicitly missed count, the past-unread count, `remainingPages`,
`remainingDays` and `suggestedPages`. -/
inductive CatchUp where
  | noReport
  | overdue (suggestedPages : ℤ)
  | catchup (explicitMissed implicitPastUnread : ℕ) (remainingPages : ℤ)
      (remainingDays : ℕ) (suggestedPages : ℤ)
deriving Repr, DecidableEq

/-- The `suggestion` memo of `CatchUpSuggestion.tsx` (lines 45-140): null when
today is after the end date; null when `totalPagesRead >= expectedPageByToday`;
null when there are no explicit missed days and no past unread days; overdue
when `remainingDays <= 0` (with `suggestedPages = remainingPages`), else the
catch-up report.  `remainingDays` is the length of the inclusive range from
today to the end date. -/
def suggestion (totalPages : ℕ) (s e today : ℤ) (rows : List SessionRow) : CatchUp :=
  if e < today then .noReport
  else
    let totalPagesRead := suggestionTotalPagesRead rows
    if expectedPageByToday totalPages s e today ≤ totalPagesRead then .noReport
    else
      let explicitlyMissedDays := (rows.filter (fun r => r.isMissed)).length
      let completedDates := (rows.filter (fun r => r.isRead && !r.isMissed)).map SessionRow.date
      let missedDays := getMissedDays s e completedDates today
      if missedDays.isEmpty && explicitlyMissedDays == 0 then .noReport
      else
        let readForCatchUp := totalPagesReadForCatchUp rows
        let remainingPages : ℤ := (totalPages : ℤ) - readForCatchUp
        let remainingDays := (getAllDaysInRange today e).length
        if remainingDays = 0 then .overdue remainingPages
        else
          .catchup explicitlyMissedDays missedDays.length remainingPages remainingDays
            (calculateCatchUpPages totalPages readForCatchUp remainingDays)

/-- A schedule entry of `distributePagesSequentially` from
`src/lib/readingCalculator.ts` (lines 75-110). -/
structure ScheduleSegment where
  bookIndex : ℕ
  startDay : ℕ
  endDay : ℕ
  pagesPerDay : ℕ
deriving Repr, DecidableEq

/-- The loop of `distributePagesSequentially`: books are `(totalPages, days)`
pairs; `daysForBook = min(book.days, availableDays - currentDay)` (truncated
subtraction mirrors the JavaScript break on a nonpositive value); the loop
breaks at the first book allotted no days, otherwise emits the segment and
advances `currentDay` past it. -/
def distributePagesSequentiallyAux (availableDays : ℕ) :
    List (ℕ × ℕ) → ℕ → ℕ → List ScheduleSegment
  | [], _, _ => []
  | b :: rest, i, currentDay =>
    let daysForBook := min b.2 (availableDays - currentDay)
    if daysForBook = 0 then []
    else
      let endDay := currentDay + daysForBook - 1
      { bookIndex := i, startDay := currentDay, endDay := endDay,
        pagesPerDay := calculateDailyPages b.1 daysForBook } ::
        distributePagesSequentiallyAux availableDays rest (i + 1) (endDay + 1)

/-- `distributePagesSequentially` from `src/lib/readingCalculator.ts`. -/
def distributePagesSequentially (books : List (ℕ × ℕ)) (availableDays : ℕ) :
    List ScheduleSegment :=
  distributePagesSequentiallyAux availableDays books 0 0

/-- Well-formedness of a schedule starting at day `c`: each segment starts
where the cursor stands, spans at least one day, ends before `availableDays`,
carries the ceiling page rate of the book it indexes, and the rest is
well-formed from the day after its end. -/
def validSchedule (books : List (ℕ × ℕ)) (availableDays : ℕ) :
    ℕ → List ScheduleSegment → Prop
  | _, [] => True
  | c, seg :: rest =>
      seg.startDay = c ∧ seg.startDay ≤ seg.endDay ∧ seg.endDay < availableDays ∧
      (∃ b, books.get? seg.bookIndex = some b ∧
        seg.pagesPerDay = calculateDailyPages b.1 (seg.endDay - seg.startDay + 1)) ∧
      validSchedule books availableDays (seg.endDay + 1) rest

/-! ## Basic lemmas about the state representation -/

theorem dayAt_cons_zero (os : Option Session) (st : BookState) : dayAt (os :: st) 0 = os := rfl

theorem dayAt_cons_succ (os : Option Session) (st : BookState) (j : ℕ) :
    dayAt (os :: st) (j + 1) = dayAt st j := rfl

theorem dayAt_of_length_le (st : BookState) (j : ℕ) (h : st.length ≤ j) : dayAt st j = none := by
  simp [dayAt, List.getElem?_eq_none h]

theorem dayAt_eq_get (st : BookState) (j : ℕ) (h : j < st.length) :
    dayAt st j = st.get ⟨j, h⟩ := by
  simp [dayAt, List.getElem?_eq_getElem h]

theorem dayAt_set_self (st : BookState) (i : ℕ) (os : Option Session) (h : i < st.length) :
    dayAt (st.set i os) i = os := by
  simp [dayAt, List.getElem?_set_self', h]

theorem dayAt_set_ne (st : BookState) (i j : ℕ) (os : Option Session) (h : i ≠ j) :
    dayAt (st.set i os) j = dayAt st j := by
  simp [dayAt, List.getElem?_set_ne h]

theorem length_applyWrite (mk : Option Session → ℕ → Option Session) (st : BookState)
    (w : ℕ × ℕ) : (applyWrite mk st w).length = st.length := by
  simp [applyWrite]

theorem dayAt_applyWrite_ne (mk : Option Session → ℕ → Option Session) (st : BookState)
    (w : ℕ × ℕ) (j : ℕ) (h : w.1 ≠ j) : dayAt (applyWrite mk st w) j = dayAt st j :=
  dayAt_set_ne st w.1 j _ h

theorem dayAt_applyWrite_self (mk : Option Session → ℕ → Option Session) (st : BookState)
    (w : ℕ × ℕ) (h : w.1 < st.length) :
    dayAt (applyWrite mk st w) w.1 = mk (dayAt st w.1) w.2 :=
  dayAt_set_self st w.1 _ h

theorem length_foldl_applyWrite (mk : Option Session → ℕ → Option Session) :
    ∀ (ws : List (ℕ × ℕ)) (st : BookState), (ws.foldl (applyWrite mk) st).length = st.length := by
  intro ws
  induction ws with
  | nil => intro st; rfl
  | cons w ws ih => intro st; rw [List.foldl_cons, ih, length_applyWrite]

theorem dayAt_foldl_not_mem (mk : Option Session → ℕ → Option Session) :
    ∀ (ws : List (ℕ × ℕ)) (st : BookState) (j : ℕ), (∀ w ∈ ws, w.1 ≠ j) →
      dayAt (ws.foldl (applyWrite mk) st) j = dayAt st j := by
  intro ws
  induction ws with
  | nil => intro st j _; rfl
  | cons w ws ih =>
      intro st j h
      rw [List.foldl_cons, ih _ _ (fun w hw => h w (List.mem_cons_of_mem _ hw)),
        dayAt_applyWrite_ne _ _ _ _ (h w (List.mem_cons_self _ _))]

theorem dayAt_foldl_mem (mk : Option Session → ℕ → Option Session) :
    ∀ (ws : List (ℕ × ℕ)) (st : BookState) (j v : ℕ), (ws.map Prod.fst).Nodup →
      (j, v) ∈ ws → j < st.length →
      dayAt (ws.foldl (applyWrite mk) st) j = mk (dayAt st j) v := by
  intro ws
  induction ws with
  | nil => intro st j v _ h; exact absurd h (List.not_mem_nil _)
  | cons w ws ih =>
      intro st j v hnd hmem hlt
      rw [List.map_cons, List.nodup_cons] at hnd
      rcases List.mem_cons.mp hmem with h | h
      · subst h
        rw [List.foldl_cons, dayAt_foldl_not_mem]
        · exact dayAt_applyWrite_self mk st (j, v) hlt
        · intro w' hw' he
          have hm : w'.1 ∈ ws.map Prod.fst := List.mem_map_of_mem Prod.fst hw'
          rw [he] at hm
          exact hnd.1 hm
      · have hne : w.1 ≠ j := by
          intro he
          apply hnd.1
          rw [he]
          exact List.mem_map_of_mem Prod.fst h
        rw [List.foldl_cons, ih _ _ _ hnd.2 h (by rwa [length_applyWrite]),
          dayAt_applyWrite_ne _ _ _ _ hne]

/-! ## Lemmas about `forEachIdx` and index sums -/

theorem forEachIdx_length (f : ℕ → α → β) :
    ∀ (l : List α) (k : ℕ), (forEachIdx f k l).length = l.length := by
  intro l
  induction l with
  | nil => intro k; rfl
  | cons a as ih => intro k; simp [forEachIdx, ih]

theorem forEachIdx_get (f : ℕ → α → β) :
    ∀ (l : List α) (k m : ℕ) (hm : m < l.length),
      (forEachIdx f k l).get ⟨m, by rw [forEachIdx_length]; exact hm⟩ =
        f (k + m) (l.get ⟨m, hm⟩) := by
  intro l
  induction l with
  | nil => intro k m hm; exact absurd hm (Nat.not_lt_zero m)
  | cons a as ih =>
      intro k m hm
      cases m with
      | zero => simp [forEachIdx]
      | succ m =>
          have hm' : m < as.length := Nat.lt_of_succ_lt_succ hm
          simp only [forEachIdx, List.get_cons_succ]
          have hidx : k + (m + 1) = k + 1 + m := by omega
          rw [hidx]
          exact ih (k + 1) m hm'

theorem forEachIdx_map (f : ℕ → α → β) (g : β → γ) :
    ∀ (l : List α) (k : ℕ),
      (forEachIdx f k l).map g = forEachIdx (fun k a => g (f k a)) k l := by
  intro l
  induction l with
  | nil => intro k; rfl
  | cons a as ih => intro k; simp [forEachIdx, ih]

theorem forEachIdx_id : ∀ (l : List α) (k : ℕ), forEachIdx (fun _ a => a) k l = l := by
  intro l
  induction l with
  | nil => intro k; rfl
  | cons a as ih => intro k; simp [forEachIdx, ih]

theorem forEachIdx_pair_fst (w : ℕ → ℕ) (l : List α) (k : ℕ) :
    (forEachIdx (fun k i => (i, w k)) k l).map Prod.fst = l := by
  rw [forEachIdx_map]
  exact forEachIdx_id l k

theorem forEachIdx_pair_snd_sum (w : ℕ → ℕ) :
    ∀ (l : List α) (k : ℕ),
      ((forEachIdx (fun k i => (i, w k)) k l).map Prod.snd).sum =
        ((List.range l.length).map (fun m => w (k + m))).sum := by
  intro l
  induction l with
  | nil => intro k; rfl
  | cons a as ih =>
      intro k
      rw [List.length_cons, List.range_succ_eq_map]
      simp only [forEachIdx, List.map_cons, List.sum_cons, List.map_map, Nat.add_zero]
      rw [ih (k + 1)]
      congr 1
      congr 1
      apply List.map_congr_left
      intro m _
      simp only [Function.comp_apply]
      congr 1
      omega

theorem sum_range_base_indicator (base rem : ℕ) :
    ∀ n : ℕ, ((List.range n).map (fun m => base + if m < rem then 1 else 0)).sum =
      base * n + min rem n := by
  intro n
  induction n with
  | zero => simp
  | succ n ih =>
      rw [List.range_succ, List.map_append, List.sum_append, ih, Nat.mul_succ]
      simp only [List.map_cons, List.map_nil, List.sum_cons, List.sum_nil]
      by_cases h : n < rem
      · simp only [if_pos h]
        omega
      · simp only [if_neg h]
        omega

/-! ## Structure of the redistribution write set -/

theorem unreadIndices_nodup (st : BookState) (ex : List ℕ) : (unreadIndices st ex).Nodup :=
  (List.nodup_range st.length).filter _

theorem mem_unreadIndices (st : BookState) (ex : List ℕ) (i : ℕ) :
    i ∈ unreadIndices st ex ↔ i < st.length ∧ unreadPred st ex i = true := by
  simp [unreadIndices, List.mem_filter, List.mem_range]

theorem redistWrites_keys (st : BookState) (totalPages u a : ℕ) (ex : List ℕ) :
    (redistWrites st totalPages u a ex).map Prod.fst = unreadIndices st ex := by
  unfold redistWrites
  by_cases h : (unreadIndices st ex).isEmpty
  · simp only [h, if_pos]
    rw [List.isEmpty_iff] at h
    simp [h]
  · simp only [h, if_neg, Bool.false_eq_true, not_false_eq_true]
    exact forEachIdx_pair_fst _ _ 0

theorem redistWrites_of_ne_nil (st : BookState) (totalPages u a : ℕ) (ex : List ℕ)
    (hne : unreadIndices st ex ≠ []) :
    redistWrites st totalPages u a ex =
      forEachIdx (fun index i =>
        (i, (totalPages - redistAccounted st u a ex) / (unreadIndices st ex).length +
          if index < (totalPages - redistAccounted st u a ex) % (unreadIndices st ex).length
          then 1 else 0)) 0 (unreadIndices st ex) := by
  unfold redistWrites
  rw [if_neg]
  intro hh
  exact hne (List.isEmpty_iff.mp hh)

theorem redistWrites_snd_sum (st : BookState) (totalPages u a : ℕ) (ex : List ℕ)
    (hne : unreadIndices st ex ≠ []) :
    ((redistWrites st totalPages u a ex).map Prod.snd).sum =
      totalPages - redistAccounted st u a ex := by
  rw [redistWrites_of_ne_nil st totalPages u a ex hne]
  rw [forEachIdx_pair_snd_sum]
  simp only [Nat.zero_add]
  rw [sum_range_base_indicator]
  have hlen : 0 < (unreadIndices st ex).length := List.length_pos.mpr hne
  have hmod : (totalPages - redistAccounted st u a ex) % (unreadIndices st ex).length <
      (unreadIndices st ex).length := Nat.mod_lt _ hlen
  rw [min_eq_left (Nat.le_of_lt hmod), Nat.mul_comm]
  exact Nat.div_add_mod _ _

theorem redistWrites_mem (st : BookState) (totalPages u a : ℕ) (ex : List ℕ)
    (hne : unreadIndices st ex ≠ []) (m : ℕ) (hm : m < (unreadIndices st ex).length) :
    ((unreadIndices st ex).get ⟨m, hm⟩,
      (totalPages - redistAccounted st u a ex) / (unreadIndices st ex).length +
        if m < (totalPages - redistAccounted st u a ex) % (unreadIndices st ex).length
        then 1 else 0) ∈ redistWrites st totalPages u a ex := by
  rw [redistWrites_of_ne_nil st totalPages u a ex hne]
  have hg := forEachIdx_get
    (fun index i => (i, (totalPages - redistAccounted st u a ex) / (unreadIndices st ex).length +
      if index < (totalPages - redistAccounted st u a ex) % (unreadIndices st ex).length
      then 1 else 0))
    (unreadIndices st ex) 0 m hm
  simp only [Nat.zero_add] at hg
  rw [← hg]
  exact List.get_mem _ _ _

/-! ## Pointwise behaviour of `redistributePages` -/

theorem redistWrites_keys_nodup (st : BookState) (totalPages u a : ℕ) (ex : List ℕ) :
    ((redistWrites st totalPages u a ex).map Prod.fst).Nodup := by
  rw [redistWrites_keys]
  exact unreadIndices_nodup st ex

theorem redistWrites_key_mem (st : BookState) (totalPages u a : ℕ) (ex : List ℕ)
    (w : ℕ × ℕ) (hw : w ∈ redistWrites st totalPages u a ex) : w.1 ∈ unreadIndices st ex := by
  rw [← redistWrites_keys st totalPages u a ex]
  exact List.mem_map_of_mem Prod.fst hw

theorem length_redistributePages (st : BookState) (totalPages u a : ℕ) (ex : List ℕ) :
    (redistributePages st totalPages u a ex).length = st.length :=
  length_foldl_applyWrite writeCreate _ st

theorem dayAt_redistributePages_not_unread (st : BookState) (totalPages u a : ℕ) (ex : List ℕ)
    (j : ℕ) (hj : unreadPred st ex j = false) :
    dayAt (redistributePages st totalPages u a ex) j = dayAt st j := by
  apply dayAt_foldl_not_mem
  intro w hw he
  have hm := redistWrites_key_mem st totalPages u a ex w hw
  rw [he, mem_unreadIndices] at hm
  rw [hm.2] at hj
  exact Bool.true_eq_false.mp hj

theorem dayAt_redistributePages_unread (st : BookState) (totalPages u a : ℕ) (ex : List ℕ)
    (hne : unreadIndices st ex ≠ []) (m : ℕ) (hm : m < (unreadIndices st ex).length) :
    dayAt (redistributePages st totalPages u a ex) ((unreadIndices st ex).get ⟨m, hm⟩) =
      writeCreate (dayAt st ((unreadIndices st ex).get ⟨m, hm⟩))
        ((totalPages - redistAccounted st u a ex) / (unreadIndices st ex).length +
          if m < (totalPages - redistAccounted st u a ex) % (unreadIndices st ex).length
          then 1 else 0) := by
  apply dayAt_foldl_mem
  · exact redistWrites_keys_nodup st totalPages u a ex
  · exact redistWrites_mem st totalPages u a ex hne m hm
  · have := List.get_mem (unreadIndices st ex) m hm
    rw [mem_unreadIndices] at this
    exact this.1

/-! ## Sums over states -/

theorem stateSum_eq_range (f : Option Session → ℕ) :
    ∀ st : BookState, (st.map f).sum =
      ((List.range st.length).map (fun j => f (dayAt st j))).sum := by
  intro st
  induction st with
  | nil => rfl
  | cons os st ih =>
      rw [List.map_cons, List.sum_cons, List.length_cons, List.range_succ_eq_map]
      simp only [List.map_cons, List.sum_cons, List.map_map]
      rw [ih]
      congr 1

theorem sum_map_filter_split (g : ℕ → ℕ) (p : ℕ → Bool) :
    ∀ l : List ℕ, (l.map g).sum =
      ((l.filter p).map g).sum + ((l.filter (fun i => !(p i))).map g).sum := by
  intro l
  induction l with
  | nil => rfl
  | cons a l ih =>
      by_cases h : p a
      · simp only [List.map_cons, List.sum_cons, List.filter_cons, h, if_pos, Bool.not_true,
          Bool.false_eq_true, if_neg, not_false_eq_true, ih]
        omega
      · have h' : p a = false := Bool.eq_false_iff.mpr h
        simp only [List.map_cons, List.sum_cons, List.filter_cons, h', Bool.false_eq_true,
          if_neg, not_false_eq_true, Bool.not_false, if_pos, ih]
        omega

theorem sum_unread_map_redistributePages (st : BookState) (totalPages u a : ℕ) (ex : List ℕ)
    (hne : unreadIndices st ex ≠ []) (f : Option Session → ℕ)
    (hf : ∀ os v, f (writeCreate os v) = v) :
    ((unreadIndices st ex).map
      (fun j => f (dayAt (redistributePages st totalPages u a ex) j))).sum =
      totalPages - redistAccounted st u a ex := by
  rw [← redistWrites_snd_sum st totalPages u a ex hne]
  congr 1
  apply List.ext_get
  · rw [List.length_map, List.length_map]
    rw [redistWrites_of_ne_nil st totalPages u a ex hne, forEachIdx_length]
  · intro m h1 h2
    rw [List.length_map] at h1
    have hm : m < (unreadIndices st ex).length := h1
    rw [List.get_map, List.get_map]
    have hw := redistWrites_mem st totalPages u a ex hne m hm
    have hget := dayAt_redistributePages_unread st totalPages u a ex hne m hm
    rw [hget, hf]
    have h2' : m < (redistWrites st totalPages u a ex).length := by
      rwa [List.length_map] at h2
    have hkey : ((redistWrites st totalPages u a ex).get ⟨m, h2'⟩) =
        ((unreadIndices st ex).get ⟨m, hm⟩,
          (totalPages - redistAccounted st u a ex) / (unreadIndices st ex).length +
            if m < (totalPages - redistAccounted st u a ex) % (unreadIndices st ex).length
            then 1 else 0) := by
      rw [List.get_of_eq (redistWrites_of_ne_nil st totalPages u a ex hne) ⟨m, h2'⟩]
      have := forEachIdx_get
        (fun index i =>
          (i, (totalPages - redistAccounted st u a ex) / (unreadIndices st ex).length +
            if index < (totalPages - redistAccounted st u a ex) % (unreadIndices st ex).length
            then 1 else 0))
        (unreadIndices st ex) 0 m hm
      simp only [Nat.zero_add] at this
      exact this
    rw [hkey]


theorem dayAt_redistributePages_unread_exists (st : BookState) (totalPages u a : ℕ)
    (ex : List ℕ) (hne : unreadIndices st ex ≠ []) (j : ℕ) (hj : j ∈ unreadIndices st ex) :
    ∃ v, dayAt (redistributePages st totalPages u a ex) j =
      writeCreate (dayAt st j) v := by
  obtain ⟨m, hm⟩ := List.mem_iff_get.mp hj
  rw [← hm]
  exact ⟨_, dayAt_redistributePages_unread st totalPages u a ex hne m.1 m.2⟩

theorem unsetContrib_writeCreate (os : Option Session) (v : ℕ) :
    unsetContrib (writeCreate os v) = v := by
  cases os <;> simp [unsetContrib, writeCreate]

theorem readContrib_writeCreate (os : Option Session) (v : ℕ) :
    readContrib (writeCreate os v) = 0 := by
  cases os <;> simp [readContrib, writeCreate]

theorem unsetContrib_of_unreadPred_false (st : BookState) (ex : List ℕ) (j : ℕ)
    (su : Session) (u : ℕ) (hu : dayAt st u = some su) (hur : su.isRead = true)
    (hex : ∀ i ∈ ex, i = u) (hp : unreadPred st ex j = false) :
    unsetContrib (dayAt st j) = 0 := by
  unfold unreadPred at hp
  rcases hcont : ex.contains j with hfalse | htrue
  · rw [hcont] at hp
    simp only [Bool.not_false, Bool.true_and] at hp
    cases hd : dayAt st j with
    | none => rw [hd] at hp; simp at hp
    | some s =>
        rw [hd] at hp
        have hb : (!s.isRead && !s.isMissed) = false := hp
        simp [unsetContrib, hb]
  · have hju : j = u := hex j (List.elem_iff.mp hcont)
    subst hju
    rw [hu]
    simp [unsetContrib, hur]

theorem unsetPlannedSum_redistributePages (st : BookState) (totalPages u a : ℕ) (ex : List ℕ)
    (su : Session) (hu : dayAt st u = some su) (hur : su.isRead = true)
    (hex : ∀ i ∈ ex, i = u) (hne : unreadIndices st ex ≠ []) :
    unsetPlannedSum (redistributePages st totalPages u a ex) =
      totalPages - redistAccounted st u a ex := by
  unfold unsetPlannedSum
  rw [stateSum_eq_range, length_redistributePages,
    sum_map_filter_split _ (unreadPred st ex)]
  have hud : (List.range st.length).filter (unreadPred st ex) = unreadIndices st ex := rfl
  rw [hud]
  have hA : ((unreadIndices st ex).map
      (fun j => unsetContrib (dayAt (redistributePages st totalPages u a ex) j))).sum =
      totalPages - redistAccounted st u a ex :=
    sum_unread_map_redistributePages st totalPages u a ex hne unsetContrib
      unsetContrib_writeCreate
  have hB : (((List.range st.length).filter (fun i => !(unreadPred st ex i))).map
      (fun j => unsetContrib (dayAt (redistributePages st totalPages u a ex) j))).sum = 0 := by
    apply List.sum_eq_zero
    intro x hx
    rw [List.mem_map] at hx
    obtain ⟨j, hj, hxe⟩ := hx
    rw [List.mem_filter] at hj
    have hp : unreadPred st ex j = false := by
      rcases Bool.eq_false_or_eq_true (unreadPred st ex j) with h | h
      · rw [h] at hj
        simp at hj
      · exact h
    rw [dayAt_redistributePages_not_unread st totalPages u a ex j hp] at hxe
    rw [← hxe]
    exact unsetContrib_of_unreadPred_false st ex j su u hu hur hex hp
  rw [hA, hB, Nat.add_zero]

theorem readContrib_of_unread_part_true (os : Option Session)
    (h : (match os with
          | some s => !s.isRead && !s.isMissed
          | none => true) = true) : readContrib os = 0 := by
  cases os with
  | none => rfl
  | some s =>
      have hb : (!s.isRead && !s.isMissed) = true := h
      rw [Bool.and_eq_true, Bool.not_eq_true'] at hb
      simp [readContrib, hb.1]

theorem codeReadEffSum_redistributePages (st : BookState) (totalPages u a : ℕ)
    (ex : List ℕ) :
    codeReadEffSum (redistributePages st totalPages u a ex) = codeReadEffSum st := by
  unfold codeReadEffSum
  rw [stateSum_eq_range, stateSum_eq_range, length_redistributePages]
  congr 1
  apply List.map_congr_left
  intro j hj
  rcases Bool.eq_false_or_eq_true (unreadPred st ex j) with hp | hp
  · have hjm : j ∈ unreadIndices st ex := by
      rw [mem_unreadIndices]
      exact ⟨List.mem_range.mp hj, hp⟩
    have hne : unreadIndices st ex ≠ [] := List.ne_nil_of_mem hjm
    obtain ⟨v, hv⟩ := dayAt_redistributePages_unread_exists st totalPages u a ex hne j hjm
    rw [hv, readContrib_writeCreate]
    have hpart : (match dayAt st j with
        | some s => !s.isRead && !s.isMissed
        | none => true) = true := by
      unfold unreadPred at hp
      rw [Bool.and_eq_true] at hp
      exact hp.2
    rw [readContrib_of_unread_part_true _ hpart]
  · rw [dayAt_redistributePages_not_unread st totalPages u a ex j hp]

theorem redistAccounted_eq_codeReadEffSum (st : BookState) (u a : ℕ) (ex : List ℕ)
    (su : Session) (hu : dayAt st u = some su) (hur : su.isRead = true)
    (hum : su.isMissed = false) (ha : codeEffectivePages su = a)
    (hex : ∀ i ∈ ex, i = u) :
    redistAccounted st u a ex = codeReadEffSum st := by
  unfold redistAccounted codeReadEffSum
  rw [stateSum_eq_range]
  apply congrArg
  apply List.map_congr_left
  intro j hj
  unfold redistContrib
  rcases Bool.eq_false_or_eq_true (ex.contains j) with hc | hc
  · have hju : j = u := hex j (List.elem_iff.mp hc)
    subst hju
    simp [hc, hu, readContrib, hur, hum, ha]
  · rw [hc]
    simp only [Bool.false_eq_true, if_false]
    cases hd : dayAt st j with
    | none => rfl
    | some s =>
        by_cases hju : j = u
        · subst hju
          rw [hd] at hu
          have hs : s = su := by
            injection hu
          subst hs
          simp [readContrib, hur, hum, ha]
        · simp only [hju, if_neg, not_false_eq_true, readContrib]

/-! ## Pointwise behaviour of `redistributePagesAfterUnread` -/

theorem afterUnreadWrites_of_ne_nil (st : BookState) (totalPages u : ℕ)
    (hne : (List.range st.length).filter (unreadPredAfterUnread st u) ≠ []) :
    afterUnreadWrites st totalPages u =
      forEachIdx (fun index i =>
        (i, (totalPages - afterUnreadAccounted st u) /
            ((List.range st.length).filter (unreadPredAfterUnread st u)).length +
          if index < (totalPages - afterUnreadAccounted st u) %
              ((List.range st.length).filter (unreadPredAfterUnread st u)).length
          then 1 else 0)) 0 ((List.range st.length).filter (unreadPredAfterUnread st u)) := by
  unfold afterUnreadWrites
  rw [if_neg]
  intro hh
  exact hne (List.isEmpty_iff.mp hh)

theorem afterUnreadWrites_keys (st : BookState) (totalPages u : ℕ) :
    (afterUnreadWrites st totalPages u).map Prod.fst =
      (List.range st.length).filter (unreadPredAfterUnread st u) := by
  unfold afterUnreadWrites
  by_cases h : ((List.range st.length).filter (unreadPredAfterUnread st u)).isEmpty
  · simp only [h, if_pos]
    rw [List.isEmpty_iff] at h
    simp [h]
  · simp only [h, Bool.false_eq_true, if_neg, not_false_eq_true]
    exact forEachIdx_pair_fst _ _ 0

theorem afterUnreadWrites_snd_sum (st : BookState) (totalPages u : ℕ)
    (hne : (List.range st.length).filter (unreadPredAfterUnread st u) ≠ []) :
    ((afterUnreadWrites st totalPages u).map Prod.snd).sum =
      totalPages - afterUnreadAccounted st u := by
  rw [afterUnreadWrites_of_ne_nil st totalPages u hne, forEachIdx_pair_snd_sum]
  simp only [Nat.zero_add]
  rw [sum_range_base_indicator]
  have hlen : 0 < ((List.range st.length).filter (unreadPredAfterUnread st u)).length :=
    List.length_pos.mpr hne
  have hmod : (totalPages - afterUnreadAccounted st u) %
      ((List.range st.length).filter (unreadPredAfterUnread st u)).length <
      ((List.range st.length).filter (unreadPredAfterUnread st u)).length :=
    Nat.mod_lt _ hlen
  rw [min_eq_left (Nat.le_of_lt hmod), Nat.mul_comm]
  exact Nat.div_add_mod _ _

theorem afterUnreadWrites_mem (st : BookState) (totalPages u : ℕ)
    (hne : (List.range st.length).filter (unreadPredAfterUnread st u) ≠ []) (m : ℕ)
    (hm : m < ((List.range st.length).filter (unreadPredAfterUnread st u)).length) :
    (((List.range st.length).filter (unreadPredAfterUnread st u)).get ⟨m, hm⟩,
      (totalPages - afterUnreadAccounted st u) /
          ((List.range st.length).filter (unreadPredAfterUnread st u)).length +
        if m < (totalPages - afterUnreadAccounted st u) %
            ((List.range st.length).filter (unreadPredAfterUnread st u)).length
        then 1 else 0) ∈ afterUnreadWrites st totalPages u := by
  rw [afterUnreadWrites_of_ne_nil st totalPages u hne]
  have hg := forEachIdx_get
    (fun index i =>
      (i, (totalPages - afterUnreadAccounted st u) /
          ((List.range st.length).filter (unreadPredAfterUnread st u)).length +
        if index < (totalPages - afterUnreadAccounted st u) %
            ((List.range st.length).filter (unreadPredAfterUnread st u)).length
        then 1 else 0))
    ((List.range st.length).filter (unreadPredAfterUnread st u)) 0 m hm
  simp only [Nat.zero_add] at hg
  rw [← hg]
  exact List.get_mem _ _ _

theorem afterUnreadWrites_keys_nodup (st : BookState) (totalPages u : ℕ) :
    ((afterUnreadWrites st totalPages u).map Prod.fst).Nodup := by
  rw [afterUnreadWrites_keys]
  exact (List.nodup_range st.length).filter _

theorem afterUnreadWrites_key_mem (st : BookState) (totalPages u : ℕ) (w : ℕ × ℕ)
    (hw : w ∈ afterUnreadWrites st totalPages u) :
    w.1 ∈ (List.range st.length).filter (unreadPredAfterUnread st u) := by
  rw [← afterUnreadWrites_keys st totalPages u]
  exact List.mem_map_of_mem Prod.fst hw

theorem length_redistributePagesAfterUnread (st : BookState) (totalPages u : ℕ) :
    (redistributePagesAfterUnread st totalPages u).length = st.length :=
  length_foldl_applyWrite writeUpdateOnly _ st

theorem dayAt_redistributePagesAfterUnread_not_pred (st : BookState) (totalPages u : ℕ)
    (j : ℕ) (hj : unreadPredAfterUnread st u j = false) :
    dayAt (redistributePagesAfterUnread st totalPages u) j = dayAt st j := by
  apply dayAt_foldl_not_mem
  intro w hw he
  have hm := afterUnreadWrites_key_mem st totalPages u w hw
  rw [he, List.mem_filter] at hm
  rw [hm.2] at hj
  exact Bool.true_eq_false.mp hj

theorem dayAt_redistributePagesAfterUnread_pred (st : BookState) (totalPages u : ℕ)
    (hne : (List.range st.length).filter (unreadPredAfterUnread st u) ≠ []) (m : ℕ)
    (hm : m < ((List.range st.length).filter (unreadPredAfterUnread st u)).length) :
    dayAt (redistributePagesAfterUnread st totalPages u)
        (((List.range st.length).filter (unreadPredAfterUnread st u)).get ⟨m, hm⟩) =
      writeUpdateOnly
        (dayAt st (((List.range st.length).filter (unreadPredAfterUnread st u)).get ⟨m, hm⟩))
        ((totalPages - afterUnreadAccounted st u) /
            ((List.range st.length).filter (unreadPredAfterUnread st u)).length +
          if m < (totalPages - afterUnreadAccounted st u) %
              ((List.range st.length).filter (unreadPredAfterUnread st u)).length
          then 1 else 0) := by
  apply dayAt_foldl_mem
  · exact afterUnreadWrites_keys_nodup st totalPages u
  · exact afterUnreadWrites_mem st totalPages u hne m hm
  · have hmem := List.get_mem ((List.range st.length).filter (unreadPredAfterUnread st u)) m hm
    rw [List.mem_filter, List.mem_range] at hmem
    exact hmem.1

theorem dayAt_redistributePagesAfterUnread_pred_exists (st : BookState) (totalPages u : ℕ)
    (j : ℕ) (hj : j ∈ (List.range st.length).filter (unreadPredAfterUnread st u)) :
    ∃ v, dayAt (redistributePagesAfterUnread st totalPages u) j =
      writeUpdateOnly (dayAt st j) v := by
  have hne : (List.range st.length).filter (unreadPredAfterUnread st u) ≠ [] :=
    List.ne_nil_of_mem hj
  obtain ⟨m, hm⟩ := List.mem_iff_get.mp hj
  rw [← hm]
  exact ⟨_, dayAt_redistributePagesAfterUnread_pred st totalPages u hne m.1 m.2⟩

theorem unsetContrib_writeUpdateOnly_some (s : Session) (v : ℕ) :
    unsetContrib (writeUpdateOnly (some s) v) = v := by
  simp [unsetContrib, writeUpdateOnly]

theorem readContrib_writeUpdateOnly (os : Option Session) (v : ℕ) :
    readContrib (writeUpdateOnly os v) = 0 := by
  cases os <;> simp [readContrib, writeUpdateOnly]

theorem sum_pred_map_redistributePagesAfterUnread (st : BookState) (totalPages u : ℕ)
    (hne : (List.range st.length).filter (unreadPredAfterUnread st u) ≠ [])
    (hback : ∀ j ∈ (List.range st.length).filter (unreadPredAfterUnread st u),
      dayAt st j ≠ none) :
    (((List.range st.length).filter (unreadPredAfterUnread st u)).map
      (fun j => unsetContrib (dayAt (redistributePagesAfterUnread st totalPages u) j))).sum =
      totalPages - afterUnreadAccounted st u := by
  rw [← afterUnreadWrites_snd_sum st totalPages u hne]
  congr 1
  apply List.ext_get
  · rw [List.length_map, List.length_map,
      afterUnreadWrites_of_ne_nil st totalPages u hne, forEachIdx_length]
  · intro m h1 h2
    rw [List.length_map] at h1
    have hm : m < ((List.range st.length).filter (unreadPredAfterUnread st u)).length := h1
    rw [List.get_map, List.get_map]
    have hget := dayAt_redistributePagesAfterUnread_pred st totalPages u hne m hm
    have h2' : m < (afterUnreadWrites st totalPages u).length := by
      rwa [List.length_map] at h2
    have hkey : ((afterUnreadWrites st totalPages u).get ⟨m, h2'⟩) =
        ((((List.range st.length).filter (unreadPredAfterUnread st u)).get ⟨m, hm⟩),
          (totalPages - afterUnreadAccounted st u) /
              ((List.range st.length).filter (unreadPredAfterUnread st u)).length +
            if m < (totalPages - afterUnreadAccounted st u) %
                ((List.range st.length).filter (unreadPredAfterUnread st u)).length
            then 1 else 0) := by
      rw [List.get_of_eq (afterUnreadWrites_of_ne_nil st totalPages u hne) ⟨m, h2'⟩]
      have := forEachIdx_get
        (fun index i =>
          (i, (totalPages - afterUnreadAccounted st u) /
              ((List.range st.length).filter (unreadPredAfterUnread st u)).length +
            if index < (totalPages - afterUnreadAccounted st u) %
                ((List.range st.length).filter (unreadPredAfterUnread st u)).length
            then 1 else 0))
        ((List.range st.length).filter (unreadPredAfterUnread st u)) 0 m hm
      simp only [Nat.zero_add] at this
      exact this
    rw [hkey]
    have hjmem := List.get_mem ((List.range st.length).filter (unreadPredAfterUnread st u)) m hm
    cases hd : dayAt st (((List.range st.length).filter (unreadPredAfterUnread st u)).get
        ⟨m, hm⟩) with
    | none => exact absurd hd (hback _ hjmem)
    | some s =>
        rw [hget, hd]
        exact unsetContrib_writeUpdateOnly_some s _

theorem unsetContrib_of_afterUnread_pred_false (st : BookState) (u j : ℕ)
    (hp : unreadPredAfterUnread st u j = false) : unsetContrib (dayAt st j) = 0 := by
  unfold unreadPredAfterUnread at hp
  rw [Bool.or_eq_false_iff] at hp
  cases hd : dayAt st j with
  | none =>
      rw [hd] at hp
      simp at hp
  | some s =>
      have hb := hp.1
      rw [hd] at hb
      have hb' : (!s.isRead && !s.isMissed) = false := hb
      simp [unsetContrib, hb']

theorem unsetPlannedSum_redistributePagesAfterUnread (st : BookState) (totalPages u : ℕ)
    (hne : (List.range st.length).filter (unreadPredAfterUnread st u) ≠ [])
    (hback : ∀ j ∈ (List.range st.length).filter (unreadPredAfterUnread st u),
      dayAt st j ≠ none) :
    unsetPlannedSum (redistributePagesAfterUnread st totalPages u) =
      totalPages - afterUnreadAccounted st u := by
  unfold unsetPlannedSum
  rw [stateSum_eq_range, length_redistributePagesAfterUnread,
    sum_map_filter_split _ (unreadPredAfterUnread st u)]
  rw [sum_pred_map_redistributePagesAfterUnread st totalPages u hne hback]
  have hB : (((List.range st.length).filter (fun i => !(unreadPredAfterUnread st u i))).map
      (fun j => unsetContrib (dayAt (redistributePagesAfterUnread st totalPages u) j))).sum
      = 0 := by
    apply List.sum_eq_zero
    intro x hx
    rw [List.mem_map] at hx
    obtain ⟨j, hj, hxe⟩ := hx
    rw [List.mem_filter] at hj
    have hp : unreadPredAfterUnread st u j = false := by
      rcases Bool.eq_false_or_eq_true (unreadPredAfterUnread st u j) with h | h
      · rw [h] at hj
        simp at hj
      · exact h
    rw [dayAt_redistributePagesAfterUnread_not_pred st totalPages u j hp] at hxe
    rw [← hxe]
    exact unsetContrib_of_afterUnread_pred_false st u j hp
  rw [hB, Nat.add_zero]

theorem codeReadEffSum_redistributePagesAfterUnread (st : BookState) (totalPages u : ℕ) :
    codeReadEffSum (redistributePagesAfterUnread st totalPages u) =
      afterUnreadAccounted st u := by
  unfold codeReadEffSum afterUnreadAccounted
  rw [stateSum_eq_range, length_redistributePagesAfterUnread]
  congr 1
  apply List.map_congr_left
  intro j hj
  rcases Bool.eq_false_or_eq_true (unreadPredAfterUnread st u j) with hp | hp
  · have hjm : j ∈ (List.range st.length).filter (unreadPredAfterUnread st u) := by
      rw [List.mem_filter]
      exact ⟨hj, hp⟩
    obtain ⟨v, hv⟩ := dayAt_redistributePagesAfterUnread_pred_exists st totalPages u j hjm
    rw [hv, readContrib_writeUpdateOnly]
    unfold unreadPredAfterUnread at hp
    rw [Bool.or_eq_true] at hp
    rcases hp with hp | hp
    · unfold afterUnreadContrib
      cases hd : dayAt st j with
      | none => rfl
      | some s =>
          rw [hd] at hp
          have hb : (!s.isRead && !s.isMissed) = true := hp
          rw [Bool.and_eq_true, Bool.not_eq_true'] at hb
          simp [hb.1]
  
    · have hju : j = u := by
        have hb : (j == u) = true := hp
        exact beq_iff_eq.mp hb
      subst hju
      unfold afterUnreadContrib
      cases hd : dayAt st j with
      | none => rfl
      | some s => simp
  · rw [dayAt_redistributePagesAfterUnread_not_pred st totalPages u j hp]
    unfold unreadPredAfterUnread at hp
    rw [Bool.or_eq_false_iff] at hp
    have hju : j ≠ u := by
      intro he
      have := hp.2
      rw [he] at this
      simp at this
    unfold afterUnreadContrib readContrib
    cases hd : dayAt st j with
    | none => rfl
    | some s =>
        have hne' : (j != u) = true := bne_iff_ne.mpr hju
        rw [hne']
        simp

theorem afterUnread_filter_ne_nil (st : BookState) (u : ℕ) (hul : u < st.length) :
    (List.range st.length).filter (unreadPredAfterUnread st u) ≠ [] := by
  apply List.ne_nil_of_mem (a := u)
  rw [List.mem_filter, List.mem_range]
  refine ⟨hul, ?_⟩
  unfold unreadPredAfterUnread
  rw [Bool.or_eq_true]
  right
  exact beq_self_eq_true u

/-! ## Claim C1: conservation after redistribution -/

/-- C1 (amended): after every `redistributePages` call, the `plannedPages` of
the still-unset days plus the code-effective pages
(`actualPages || plannedPages`) of the read days sum to `totalPages`,
provided the pages the call counts for the toggled day equal that day's
code-effective pages, the toggled day is recorded read and non-missed, the
excluded set contains only the toggled day, the accounted sum does not
exceed `totalPages`, and at least one day stays unread; and the analogous
conservation holds for every `redistributePagesAfterUnread` call whose
unread days all have session rows. -/
theorem C1_conservation_amended :
    (∀ (st : BookState) (totalPages u a : ℕ) (ex : List ℕ) (su : Session),
      dayAt st u = some su → su.isRead = true → su.isMissed = false →
      codeEffectivePages su = a → (∀ i ∈ ex, i = u) →
      redistAccounted st u a ex ≤ totalPages → unreadIndices st ex ≠ [] →
      unsetPlannedSum (redistributePages st totalPages u a ex) +
        codeReadEffSum (redistributePages st totalPages u a ex) = totalPages) ∧
    (∀ (st : BookState) (totalPages u : ℕ),
      u < st.length →
      (∀ j ∈ (List.range st.length).filter (unreadPredAfterUnread st u), dayAt st j ≠ none) →
      afterUnreadAccounted st u ≤ totalPages →
      unsetPlannedSum (redistributePagesAfterUnread st totalPages u) +
        codeReadEffSum (redistributePagesAfterUnread st totalPages u) = totalPages) := by
  constructor
  · intro st totalPages u a ex su hu hur hum ha hex hacc hne
    rw [unsetPlannedSum_redistributePages st totalPages u a ex su hu hur hex hne,
      codeReadEffSum_redistributePages st totalPages u a ex,
      ← redistAccounted_eq_codeReadEffSum st u a ex su hu hur hum ha hex]
    omega
  · intro st totalPages u hul hback hacc
    rw [unsetPlannedSum_redistributePagesAfterUnread st totalPages u
        (afterUnread_filter_ne_nil st u hul) hback,
      codeReadEffSum_redistributePagesAfterUnread st totalPages u]
    omega

/-- Witness for C1 (amended) at concrete inputs: a 2-day book with 10 total
pages, day 0 read with 4 actual pages (toggled, excluded), and a 2-day fully
unread book for the after-unread part. -/
theorem C1_conservation_amended_witness :
    (dayAt [some ⟨true, false, 5, some 4⟩, some ⟨false, false, 5, none⟩] 0 =
        some ⟨true, false, 5, some 4⟩ ∧
      redistAccounted [some ⟨true, false, 5, some 4⟩, some ⟨false, false, 5, none⟩] 0 4 [0]
        ≤ 10 ∧
      unsetPlannedSum (redistributePages
          [some ⟨true, false, 5, some 4⟩, some ⟨false, false, 5, none⟩] 10 0 4 [0]) +
        codeReadEffSum (redistributePages
          [some ⟨true, false, 5, some 4⟩, some ⟨false, false, 5, none⟩] 10 0 4 [0]) = 10) ∧
    (unsetPlannedSum (redistributePagesAfterUnread
        [some ⟨false, false, 5, none⟩, some ⟨false, false, 5, none⟩] 10 0) +
      codeReadEffSum (redistributePagesAfterUnread
        [some ⟨false, false, 5, none⟩, some ⟨false, false, 5, none⟩] 10 0) = 10) :=
  ⟨⟨by decide, by decide,
    C1_conservation_amended.1 [some ⟨true, false, 5, some 4⟩, some ⟨false, false, 5, none⟩]
      10 0 4 [0] ⟨true, false, 5, some 4⟩ (by decide) (by decide) (by decide) (by decide)
      (by decide) (by decide) (by decide)⟩,
    C1_conservation_amended.2 [some ⟨false, false, 5, none⟩, some ⟨false, false, 5, none⟩]
      10 0 (by decide) (by decide) (by decide)⟩

/-- C1 (counterexample): a 3-day, 2-page plan built only by valid status
toggles (mark day 0 read, then mark day 2 read — the last toggle triggers a
`redistributePages` call).  In the resulting state day 1 is still unset,
the read-day sum is 1 ≤ 2 under either reading of effective pages, yet
`unsetPlannedSum + specReadEffSum = 0 + 1 ≠ 2`: conservation fails because
the toggle counted `actualPages || plannedPages || pagesPerDay = 1` for day 2
while that day's recorded effective pages are 0. -/
theorem C1_counterexample :
    runDayOps 2 1 [none, none, none] [DayOp.toggleRead 0, DayOp.toggleRead 2] =
      [some ⟨true, false, 1, none⟩, some ⟨false, false, 0, none⟩,
        some ⟨true, false, 0, none⟩] ∧
    statusOf (runDayOps 2 1 [none, none, none]
      [DayOp.toggleRead 0, DayOp.toggleRead 2]) 1 = DayStatus.unset ∧
    specReadEffSum (runDayOps 2 1 [none, none, none]
      [DayOp.toggleRead 0, DayOp.toggleRead 2]) = 1 ∧
    codeReadEffSum (runDayOps 2 1 [none, none, none]
      [DayOp.toggleRead 0, DayOp.toggleRead 2]) = 1 ∧
    unsetPlannedSum (runDayOps 2 1 [none, none, none]
      [DayOp.toggleRead 0, DayOp.toggleRead 2]) = 0 ∧
    unsetPlannedSum (runDayOps 2 1 [none, none, none]
        [DayOp.toggleRead 0, DayOp.toggleRead 2]) +
      specReadEffSum (runDayOps 2 1 [none, none, none]
        [DayOp.toggleRead 0, DayOp.toggleRead 2]) ≠ 2 := by
  decide

/-! ## Claim C6: idempotence of redistribution -/

theorem unreadPred_congr (st1 st2 : BookState) (ex : List ℕ) (j : ℕ)
    (h : dayAt st1 j = dayAt st2 j) : unreadPred st1 ex j = unreadPred st2 ex j := by
  unfold unreadPred
  rw [h]

theorem redistContrib_congr (st1 st2 : BookState) (u a : ℕ) (ex : List ℕ) (j : ℕ)
    (h : dayAt st1 j = dayAt st2 j) :
    redistContrib st1 u a ex j = redistContrib st2 u a ex j := by
  unfold redistContrib
  rw [h]

theorem unreadPred_redistributePages (st : BookState) (totalPages u a : ℕ) (ex : List ℕ)
    (j : ℕ) :
    unreadPred (redistributePages st totalPages u a ex) ex j = unreadPred st ex j := by
  rcases Bool.eq_false_or_eq_true (unreadPred st ex j) with hp | hp
  · by_cases hjl : j < st.length
    · have hjm : j ∈ unreadIndices st ex := by
        rw [mem_unreadIndices]
        exact ⟨hjl, hp⟩
      have hne : unreadIndices st ex ≠ [] := List.ne_nil_of_mem hjm
      obtain ⟨v, hv⟩ := dayAt_redistributePages_unread_exists st totalPages u a ex hne j hjm
      unfold unreadPred at hp ⊢
      rw [Bool.and_eq_true] at hp
      rw [hv]
      have h2 := hp.2
      cases hd : dayAt st j with
      | none => simp [writeCreate, hp.1]
      | some s =>
          rw [hd] at h2
          have hb : (!s.isRead && !s.isMissed) = true := h2
          simp [writeCreate, hp.1, hb]
    · have hun : dayAt (redistributePages st totalPages u a ex) j = dayAt st j := by
        apply dayAt_foldl_not_mem
        intro w hw he
        have hmem := redistWrites_key_mem st totalPages u a ex w hw
        rw [he, mem_unreadIndices] at hmem
        exact hjl hmem.1
      exact unreadPred_congr _ _ ex j hun
  · exact unreadPred_congr _ _ ex j
      (dayAt_redistributePages_not_unread st totalPages u a ex j hp)

theorem redistContrib_redistributePages (st : BookState) (totalPages u a : ℕ) (ex : List ℕ)
    (j : ℕ) :
    redistContrib (redistributePages st totalPages u a ex) u a ex j =
      redistContrib st u a ex j := by
  rcases Bool.eq_false_or_eq_true (unreadPred st ex j) with hp | hp
  · by_cases hjl : j < st.length
    · have hjm : j ∈ unreadIndices st ex := by
        rw [mem_unreadIndices]
        exact ⟨hjl, hp⟩
      have hne : unreadIndices st ex ≠ [] := List.ne_nil_of_mem hjm
      obtain ⟨v, hv⟩ := dayAt_redistributePages_unread_exists st totalPages u a ex hne j hjm
      unfold unreadPred at hp
      rw [Bool.and_eq_true, Bool.not_eq_true'] at hp
      unfold redistContrib
      rw [hv, hp.1]
      simp only [Bool.false_eq_true, if_false]
      cases hd : dayAt st j with
      | none =>
          simp [writeCreate]
      | some s =>
          rw [hd] at hp
          have hb : (!s.isRead && !s.isMissed) = true := hp.2
          rw [Bool.and_eq_true, Bool.not_eq_true'] at hb
          simp [writeCreate, hb.1]
    · have hun : dayAt (redistributePages st totalPages u a ex) j = dayAt st j := by
        apply dayAt_foldl_not_mem
        intro w hw he
        have hmem := redistWrites_key_mem st totalPages u a ex w hw
        rw [he, mem_unreadIndices] at hmem
        exact hjl hmem.1
      exact redistContrib_congr _ _ u a ex j hun
  · exact redistContrib_congr _ _ u a ex j
      (dayAt_redistributePages_not_unread st totalPages u a ex j hp)

theorem redistAccounted_redistributePages (st : BookState) (totalPages u a : ℕ)
    (ex : List ℕ) :
    redistAccounted (redistributePages st totalPages u a ex) u a ex =
      redistAccounted st u a ex := by
  unfold redistAccounted
  rw [length_redistributePages]
  congr 1
  apply List.map_congr_left
  intro j _
  exact redistContrib_redistributePages st totalPages u a ex j

theorem unreadIndices_redistributePages (st : BookState) (totalPages u a : ℕ)
    (ex : List ℕ) :
    unreadIndices (redistributePages st totalPages u a ex) ex = unreadIndices st ex := by
  unfold unreadIndices
  rw [length_redistributePages]
  apply List.filter_congr
  intro j _
  exact unreadPred_redistributePages st totalPages u a ex j

theorem redistWrites_redistributePages (st : BookState) (totalPages u a : ℕ)
    (ex : List ℕ) :
    redistWrites (redistributePages st totalPages u a ex) totalPages u a ex =
      redistWrites st totalPages u a ex := by
  unfold redistWrites
  rw [redistAccounted_redistributePages, unreadIndices_redistributePages]

theorem writeCreate_writeCreate (os : Option Session) (v : ℕ) :
    writeCreate (writeCreate os v) v = writeCreate os v := by
  cases os <;> rfl

theorem redistributePages_idem (st : BookState) (totalPages u a : ℕ) (ex : List ℕ) :
    redistributePages (redistributePages st totalPages u a ex) totalPages u a ex =
      redistributePages st totalPages u a ex := by
  apply List.ext_get
  · rw [length_redistributePages, length_redistributePages]
  · intro m hm1 hm2
    rw [← dayAt_eq_get _ m hm1, ← dayAt_eq_get _ m hm2]
    have h1 : m < st.length := by
      rw [length_redistributePages, length_redistributePages] at hm1
      exact hm1
    rcases Bool.eq_false_or_eq_true (unreadPred st ex m) with hp | hp
    · have hjm : m ∈ unreadIndices st ex := by
        rw [mem_unreadIndices]
        exact ⟨h1, hp⟩
      have hkeys : m ∈ (redistWrites st totalPages u a ex).map Prod.fst := by
        rw [redistWrites_keys]
        exact hjm
      rw [List.mem_map] at hkeys
      obtain ⟨w, hw, hwm⟩ := hkeys
      have hw2 : w ∈ redistWrites (redistributePages st totalPages u a ex) totalPages u a ex := by
        rw [redistWrites_redistributePages]
        exact hw
      have hstep2 : dayAt (redistributePages (redistributePages st totalPages u a ex)
          totalPages u a ex) m = writeCreate (dayAt (redistributePages st totalPages u a ex) m)
          w.2 := by
        have := dayAt_foldl_mem writeCreate
          (redistWrites (redistributePages st totalPages u a ex) totalPages u a ex)
          (redistributePages st totalPages u a ex) w.1 w.2
          (redistWrites_keys_nodup _ totalPages u a ex) (by rwa [← Prod.mk.eta (p := w)] at hw2)
          (by rw [length_redistributePages]; rw [hwm] at *; exact h1)
        rw [hwm] at this
        exact this
      have hstep1 : dayAt (redistributePages st totalPages u a ex) m =
          writeCreate (dayAt st m) w.2 := by
        have := dayAt_foldl_mem writeCreate (redistWrites st totalPages u a ex) st w.1 w.2
          (redistWrites_keys_nodup st totalPages u a ex) (by rwa [← Prod.mk.eta (p := w)] at hw)
          (by rw [hwm] at *; exact h1)
        rw [hwm] at this
        exact this
      rw [hstep2, hstep1, writeCreate_writeCreate]
    · have hnm : ∀ w ∈ redistWrites (redistributePages st totalPages u a ex) totalPages u a ex,
          w.1 ≠ m := by
        intro w hw he
        rw [redistWrites_redistributePages] at hw
        have hmem := redistWrites_key_mem st totalPages u a ex w hw
        rw [he, mem_unreadIndices] at hmem
        rw [hmem.2] at hp
        exact Bool.true_eq_false.mp hp
      exact dayAt_foldl_not_mem writeCreate _ _ m hnm

/-- C6 (amended): an immediate second `redistributePages` call with the same
arguments produces exactly the same write set and leaves the state unchanged
(idempotence of the values); but the code never filters its writes to the
days whose `plannedPages` changed — every unread day is written on every
call, so the second call's write set is the same nonempty set again, not
empty. -/
theorem C6_idempotence_amended (st : BookState) (totalPages u a : ℕ) (ex : List ℕ) :
    redistWrites (redistributePages st totalPages u a ex) totalPages u a ex =
      redistWrites st totalPages u a ex ∧
    redistributePages (redistributePages st totalPages u a ex) totalPages u a ex =
      redistributePages st totalPages u a ex :=
  ⟨redistWrites_redistributePages st totalPages u a ex,
    redistributePages_idem st totalPages u a ex⟩

/-- C6 (counterexample): a 2-day, 10-page book whose day 0 is read with 4
actual pages.  The first `redistributePages` call writes day 1 to 6 planned
pages; the immediate second call, with no intervening status change, emits
the write `(1, 6)` again — a nonempty write set touching a day whose
`plannedPages` did not change, refuting "returns only the days whose
plannedPages actually changed, so the second call produces no writes". -/
theorem C6_counterexample :
    redistWrites (redistributePages [some ⟨true, false, 5, some 4⟩,
        some ⟨false, false, 5, none⟩] 10 0 4 []) 10 0 4 [] = [(1, 6)] ∧
    plannedOf (redistributePages [some ⟨true, false, 5, some 4⟩,
        some ⟨false, false, 5, none⟩] 10 0 4 []) 1 = 6 ∧
    redistWrites (redistributePages [some ⟨true, false, 5, some 4⟩,
        some ⟨false, false, 5, none⟩] 10 0 4 []) 10 0 4 [] ≠ [] := by
  decide

/-! ## Claim C2: order-independence of the final distribution -/

theorem unread_part_eq_statusUnset (st : BookState) (j : ℕ) :
    (match dayAt st j with
     | some s => !s.isRead && !s.isMissed
     | none => true) = decide (statusOf st j = DayStatus.unset) := by
  unfold statusOf
  cases dayAt st j with
  | none => simp
  | some s =>
      rcases Bool.eq_false_or_eq_true s.isRead with hr | hr <;>
        rcases Bool.eq_false_or_eq_true s.isMissed with hm | hm <;>
          simp [hr, hm]

theorem unreadPred_eq_status (st : BookState) (ex : List ℕ) (j : ℕ) :
    unreadPred st ex j =
      (!(ex.contains j) && decide (statusOf st j = DayStatus.unset)) := by
  unfold unreadPred
  rw [unread_part_eq_statusUnset]

theorem redistContrib_eq_status (st : BookState) (u a : ℕ) (ex : List ℕ) (j : ℕ)
    (hc : ex.contains j = false) :
    redistContrib st u a ex j =
      if statusOf st j = DayStatus.read then (if j = u then a else effOf st j) else 0 := by
  unfold redistContrib statusOf effOf
  rw [hc]
  simp only [Bool.false_eq_true, if_false]
  cases dayAt st j with
  | none => simp
  | some s =>
      rcases Bool.eq_false_or_eq_true s.isRead with hr | hr <;>
        rcases Bool.eq_false_or_eq_true s.isMissed with hm | hm <;>
          simp [hr, hm]

theorem statusOf_congr (st1 st2 : BookState) (j : ℕ) (h : dayAt st1 j = dayAt st2 j) :
    statusOf st1 j = statusOf st2 j := by
  unfold statusOf
  rw [h]

/-- C2 (amended): the distribution written over the unset days by a
`redistributePages` call is a function of the days' statuses and the read
days' code-effective pages alone: two states agreeing on every day's status
and on every read day's effective pages (with the toggled day read and the
excluded set contained in it) receive identical `plannedPages` on every day
left unset.  Order-independence therefore holds exactly when the last status
change triggers a redistribution and every read day's effective contribution
is pinned; a trailing `Missed` toggle (which never redistributes) or a read
day falling back to its history-dependent `plannedPages` breaks it. -/
theorem C2_order_independence_amended (st1 st2 : BookState) (totalPages u a : ℕ)
    (ex : List ℕ) (hlen : st1.length = st2.length)
    (hstat : ∀ j, statusOf st1 j = statusOf st2 j)
    (heff : ∀ j, statusOf st1 j = DayStatus.read → effOf st1 j = effOf st2 j)
    (hu : statusOf st1 u = DayStatus.read)
    (hex : ∀ i ∈ ex, i = u) :
    ∀ j, statusOf (redistributePages st1 totalPages u a ex) j = DayStatus.unset →
      plannedOf (redistributePages st1 totalPages u a ex) j =
        plannedOf (redistributePages st2 totalPages u a ex) j := by
  have hacc : redistAccounted st1 u a ex = redistAccounted st2 u a ex := by
    unfold redistAccounted
    rw [hlen]
    congr 1
    apply List.map_congr_left
    intro j _
    rcases Bool.eq_false_or_eq_true (ex.contains j) with hc | hc
    · unfold redistContrib
      rw [hc]
      simp
    · rw [redistContrib_eq_status st1 u a ex j hc, redistContrib_eq_status st2 u a ex j hc,
        hstat j]
      by_cases hr : statusOf st2 j = DayStatus.read
      · rw [if_pos hr, if_pos hr]
        by_cases hju : j = u
        · rw [if_pos hju, if_pos hju]
        · rw [if_neg hju, if_neg hju, heff j (by rw [hstat j]; exact hr)]
      · rw [if_neg hr, if_neg hr]
  have hud : unreadIndices st1 ex = unreadIndices st2 ex := by
    unfold unreadIndices
    rw [hlen]
    apply List.filter_congr
    intro j _
    rw [unreadPred_eq_status, unreadPred_eq_status, hstat j]
  have hw : redistWrites st1 totalPages u a ex = redistWrites st2 totalPages u a ex := by
    unfold redistWrites
    rw [hacc, hud]
  intro j hjs
  rcases Bool.eq_false_or_eq_true (unreadPred st1 ex j) with hp | hp
  · by_cases hjl : j < st1.length
    · have hjm : j ∈ unreadIndices st1 ex := by
        rw [mem_unreadIndices]
        exact ⟨hjl, hp⟩
      have hkeys : j ∈ (redistWrites st1 totalPages u a ex).map Prod.fst := by
        rw [redistWrites_keys]
        exact hjm
      rw [List.mem_map] at hkeys
      obtain ⟨w, hwmem, hwm⟩ := hkeys
      have hd1 : dayAt (redistributePages st1 totalPages u a ex) j =
          writeCreate (dayAt st1 j) w.2 := by
        have := dayAt_foldl_mem writeCreate (redistWrites st1 totalPages u a ex) st1 w.1 w.2
          (redistWrites_keys_nodup st1 totalPages u a ex)
          (by rwa [← Prod.mk.eta (p := w)] at hwmem) (by rw [hwm]; exact hjl)
        rw [hwm] at this
        exact this
      have hd2 : dayAt (redistributePages st2 totalPages u a ex) j =
          writeCreate (dayAt st2 j) w.2 := by
        have := dayAt_foldl_mem writeCreate (redistWrites st2 totalPages u a ex) st2 w.1 w.2
          (redistWrites_keys_nodup st2 totalPages u a ex)
          (by rw [← hw]; rwa [← Prod.mk.eta (p := w)] at hwmem)
          (by rw [hwm, ← hlen]; exact hjl)
        rw [hwm] at this
        exact this
      unfold plannedOf
      rw [hd1, hd2]
      cases dayAt st1 j <;> cases dayAt st2 j <;> simp [writeCreate]
    · unfold plannedOf
      rw [dayAt_of_length_le _ j (by rw [length_redistributePages]; omega),
        dayAt_of_length_le _ j (by rw [length_redistributePages]; omega)]
  · have hun : dayAt (redistributePages st1 totalPages u a ex) j = dayAt st1 j :=
      dayAt_redistributePages_not_unread st1 totalPages u a ex j hp
    have hs1 : statusOf st1 j = DayStatus.unset := by
      rw [← statusOf_congr _ _ j hun]
      exact hjs
    rw [unreadPred_eq_status, hs1] at hp
    simp at hp
    have hju : j = u := hex j hp
    rw [hju, hu] at hs1
    exact absurd hs1 (by simp)

/-- Witness for C2 (amended): two 2-day states agreeing on statuses (day 0
read with actual pages 3, day 1 unset) but with different stale
`plannedPages`; after redistribution the unset day carries the same target in
both. -/
theorem C2_order_independence_amended_witness :
    statusOf (redistributePages [some ⟨true, false, 3, some 3⟩, some ⟨false, false, 4, none⟩]
      10 0 3 [0]) 1 = DayStatus.unset ∧
    plannedOf (redistributePages [some ⟨true, false, 3, some 3⟩, some ⟨false, false, 4, none⟩]
        10 0 3 [0]) 1 =
      plannedOf (redistributePages [some ⟨true, false, 7, some 3⟩, some ⟨false, false, 9, none⟩]
        10 0 3 [0]) 1 :=
  ⟨by decide,
    C2_order_independence_amended
      [some ⟨true, false, 3, some 3⟩, some ⟨false, false, 4, none⟩]
      [some ⟨true, false, 7, some 3⟩, some ⟨false, false, 9, none⟩] 10 0 3 [0] rfl
      (fun j => by
        match j with
        | 0 => rfl
        | 1 => rfl
        | n + 2 => rfl)
      (fun j h => by
        match j with
        | 0 => rfl
        | 1 => exact DayStatus.noConfusion h
        | n + 2 => exact DayStatus.noConfusion h)
      rfl (by decide) 1 (by decide)⟩

/-- C2 (counterexample): a 3-day, 9-page plan with no session rows.  Marking
day 0 missed and then day 1 read leaves day 2 planned 6; marking day 1 read
and then day 0 missed leaves day 2 planned 3 — identical final statuses and
actual pages, different final distribution, because marking a day missed
never triggers redistribution. -/
theorem C2_counterexample :
    runDayOps 9 3 [none, none, none] [DayOp.toggleMissed 0, DayOp.toggleRead 1] =
      [some ⟨false, true, 3, none⟩, some ⟨true, false, 3, none⟩,
        some ⟨false, false, 6, none⟩] ∧
    runDayOps 9 3 [none, none, none] [DayOp.toggleRead 1, DayOp.toggleMissed 0] =
      [some ⟨false, true, 3, none⟩, some ⟨true, false, 3, none⟩,
        some ⟨false, false, 3, none⟩] ∧
    (∀ j, j < 3 →
      statusOf (runDayOps 9 3 [none, none, none]
          [DayOp.toggleMissed 0, DayOp.toggleRead 1]) j =
        statusOf (runDayOps 9 3 [none, none, none]
          [DayOp.toggleRead 1, DayOp.toggleMissed 0]) j) ∧
    plannedOf (runDayOps 9 3 [none, none, none]
      [DayOp.toggleMissed 0, DayOp.toggleRead 1]) 2 = 6 ∧
    plannedOf (runDayOps 9 3 [none, none, none]
      [DayOp.toggleRead 1, DayOp.toggleMissed 0]) 2 = 3 ∧
    plannedOf (runDayOps 9 3 [none, none, none]
        [DayOp.toggleMissed 0, DayOp.toggleRead 1]) 2 ≠
      plannedOf (runDayOps 9 3 [none, none, none]
        [DayOp.toggleRead 1, DayOp.toggleMissed 0]) 2 := by
  decide

/-! ## Claim C3: marking a day missed -/

/-- C3 (amended): marking a day missed performs no redistribution at all.
For a day with an existing non-missed session, `handleMissedToggle` only
rewrites that day's status to missed (its `plannedPages` and `actualPages`
kept); every other day's session — in particular every open day's
`plannedPages` — is completely unchanged.  The 100-across-9 split the spec
describes can only appear at the next Read/Unread toggle, which is the first
redistribution that excludes the missed day from its divisor without
returning its pages. -/
theorem C3_missed_no_redistribution_amended (st : BookState) (totalPages ppd u : ℕ)
    (s : Session) (hs : dayAt st u = some s) (hm : s.isMissed = false) :
    handleMissedToggle st totalPages ppd u =
      setDay st u (some { s with isRead := false, isMissed := true }) ∧
    ∀ j, j ≠ u → dayAt (handleMissedToggle st totalPages ppd u) j = dayAt st j := by
  have hgoal : handleMissedToggle st totalPages ppd u =
      setDay st u (some { s with isRead := false, isMissed := true }) := by
    unfold handleMissedToggle
    rw [hs]
    simp [hm]
  refine ⟨hgoal, ?_⟩
  intro j hj
  rw [hgoal]
  exact dayAt_set_ne st u j _ (fun he => hj (he.symm))

/-- Witness for C3 (amended): fresh 10-day, 100-page plan with ten session
rows of 10 planned pages; marking day 0 missed only flips day 0's status. -/
theorem C3_missed_no_redistribution_amended_witness :
    handleMissedToggle (List.replicate 10 (some ⟨false, false, 10, none⟩)) 100 10 0 =
      setDay (List.replicate 10 (some ⟨false, false, 10, none⟩)) 0
        (some ⟨false, true, 10, none⟩) ∧
    dayAt (handleMissedToggle (List.replicate 10 (some ⟨false, false, 10, none⟩)) 100 10 0)
        3 = dayAt (List.replicate 10 (some ⟨false, false, 10, none⟩)) 3 :=
  ⟨(C3_missed_no_redistribution_amended (List.replicate 10 (some ⟨false, false, 10, none⟩))
      100 10 0 ⟨false, false, 10, none⟩ (by decide) (by decide)).1,
    (C3_missed_no_redistribution_amended (List.replicate 10 (some ⟨false, false, 10, none⟩))
      100 10 0 ⟨false, false, 10, none⟩ (by decide) (by decide)).2 3 (by decide)⟩

/-- C3 (counterexample): in the fresh 10-day, 100-page plan (ten sessions of
10 planned pages), marking day 0 missed leaves every other day at 10 planned
pages; the first open day does not receive the `ceil`-front share 12 of a
100-across-9 split, because `handleMissedToggle` returns early with "No
redistribution needed when marking as missed". -/
theorem C3_counterexample :
    handleMissedToggle (List.replicate 10 (some ⟨false, false, 10, none⟩)) 100 10 0 =
      some ⟨false, true, 10, none⟩ :: List.replicate 9 (some ⟨false, false, 10, none⟩) ∧
    plannedOf (handleMissedToggle (List.replicate 10 (some ⟨false, false, 10, none⟩))
      100 10 0) 1 = 10 ∧
    plannedOf (handleMissedToggle (List.replicate 10 (some ⟨false, false, 10, none⟩))
      100 10 0) 1 ≠ 12 ∧
    plannedOf (handleMissedToggle (List.replicate 10 (some ⟨false, false, 10, none⟩))
      100 10 0) 9 ≠ 11 := by
  decide

/-! ## The day range -/

theorem rangeAux_length : ∀ (n : ℕ) (s : ℤ), (rangeAux n s).length = n := by
  intro n
  induction n with
  | zero => intro s; rfl
  | succ n ih => intro s; simp [rangeAux, ih]

theorem rangeAux_get : ∀ (n : ℕ) (s : ℤ) (k : ℕ) (hk : k < n),
    (rangeAux n s).get ⟨k, by rw [rangeAux_length]; exact hk⟩ = s + k := by
  intro n
  induction n with
  | zero => intro s k hk; exact absurd hk (Nat.not_lt_zero k)
  | succ n ih =>
      intro s k hk
      cases k with
      | zero => simp [rangeAux]
      | succ k =>
          have hk' : k < n := Nat.lt_of_succ_lt_succ hk
          simp only [rangeAux, List.get_cons_succ]
          rw [ih (s + 1) k hk']
          push_cast
          ring

theorem mem_rangeAux : ∀ (n : ℕ) (s : ℤ) (d : ℤ), d ∈ rangeAux n s ↔ s ≤ d ∧ d < s + n := by
  intro n
  induction n with
  | zero =>
      intro s d
      simp [rangeAux]
  | succ n ih =>
      intro s d
      simp only [rangeAux, List.mem_cons, ih (s + 1) d]
      constructor
      · intro h
        rcases h with h | h
        · subst h
          push_cast
          omega
      
        · push_cast at h ⊢
          omega
      · intro h
        by_cases hd : d = s
        · exact Or.inl hd
        · right
          push_cast at h ⊢
          omega

theorem rangeAux_pairwise_lt : ∀ (n : ℕ) (s : ℤ), (rangeAux n s).Pairwise (· < ·) := by
  intro n
  induction n with
  | zero => intro s; exact List.Pairwise.nil
  | succ n ih =>
      intro s
      refine List.Pairwise.cons ?_ (ih (s + 1))
      intro d hd
      have := (mem_rangeAux n (s + 1) d).mp hd
      omega

theorem getAllDaysInRange_length (s e : ℤ) :
    (getAllDaysInRange s e).length = (e + 1 - s).toNat := by
  unfold getAllDaysInRange
  exact rangeAux_length _ s

/-! ## Claim C5: the initial allocator -/

/-- C5: for every `totalPages` and every nonempty inclusive range (`s ≤ e`)
of `n = (e + 1 - s).toNat` days, `distributePagesAcrossDays` assigns
`floor(totalPages / n) + 1` pages to the day at index `k` when
`k < totalPages % n` and `floor(totalPages / n)` otherwise, pairing index `k`
with day `s + k`, and the assigned pages sum to exactly `totalPages`. -/
theorem C5_allocator (totalPages : ℕ) (s e : ℤ) (hse : s ≤ e) :
    ((distributePagesAcrossDays totalPages s e).map Prod.snd).sum = totalPages ∧
    (distributePagesAcrossDays totalPages s e).length = (e + 1 - s).toNat ∧
    ∀ k (hk : k < (distributePagesAcrossDays totalPages s e).length),
      (distributePagesAcrossDays totalPages s e).get ⟨k, hk⟩ =
        (s + k, totalPages / (e + 1 - s).toNat +
          if k < totalPages % (e + 1 - s).toNat then 1 else 0) := by
  have hn : (getAllDaysInRange s e).length = (e + 1 - s).toNat :=
    getAllDaysInRange_length s e
  have hpos : 0 < (e + 1 - s).toNat := by omega
  refine ⟨?_, ?_, ?_⟩
  · unfold distributePagesAcrossDays
    rw [forEachIdx_pair_snd_sum, hn]
    simp only [Nat.zero_add]
    rw [sum_range_base_indicator]
    have hmod : totalPages % (e + 1 - s).toNat < (e + 1 - s).toNat :=
      Nat.mod_lt _ hpos
    rw [min_eq_left (Nat.le_of_lt hmod), Nat.mul_comm]
    exact Nat.div_add_mod _ _
  · unfold distributePagesAcrossDays
    rw [forEachIdx_length, hn]
  · intro k hk
    unfold distributePagesAcrossDays at hk ⊢
    rw [forEachIdx_length] at hk
    have hget := forEachIdx_get
      (fun index d => (d, totalPages / (getAllDaysInRange s e).length +
        if index < totalPages % (getAllDaysInRange s e).length then 1 else 0))
      (getAllDaysInRange s e) 0 k hk
    simp only [Nat.zero_add] at hget
    rw [hget]
    have hdays : (getAllDaysInRange s e).get ⟨k, hk⟩ = s + k := by
      unfold getAllDaysInRange at hk ⊢
      rw [rangeAux_length] at hk
      exact rangeAux_get _ s k hk
    rw [hdays, hn]

/-- Witness for C5 at the spec's boundary example: 100 pages over the 7-day
range `[0, 6]` give two days 15 and five days 14, summing to 100. -/
theorem C5_allocator_witness :
    (0 : ℤ) ≤ 6 ∧
    ((distributePagesAcrossDays 100 0 6).map Prod.snd).sum = 100 ∧
    distributePagesAcrossDays 100 0 6 =
      [(0, 15), (1, 15), (2, 14), (3, 14), (4, 14), (5, 14), (6, 14)] :=
  ⟨by decide, (C5_allocator 100 0 6 (by decide)).1, by decide⟩

/-! ## Claim C4: the expected-pages walk -/

theorem lookup_self_of_keys_nodup :
    ∀ (l : List (ℤ × ℕ)), ((l.map Prod.fst).Nodup) → ∀ p ∈ l, l.lookup p.1 = some p.2 := by
  intro l
  induction l with
  | nil => intro _ p hp; exact absurd hp (List.not_mem_nil p)
  | cons q rest ih =>
      intro hnd p hp
      rw [List.map_cons, List.nodup_cons] at hnd
      rcases List.mem_cons.mp hp with h | h
      · subst h
        show List.lookup p.1 (p :: rest) = some p.2
        rw [← Prod.mk.eta (p := p), List.lookup_cons]
        simp
      · have hne : (p.1 == q.1) = false := by
          rw [beq_eq_false_iff_ne]
          intro he
          apply hnd.1
          rw [← he]
          exact List.mem_map_of_mem Prod.fst h
        show List.lookup p.1 (q :: rest) = some p.2
        rw [← Prod.mk.eta (p := q), List.lookup_cons, hne]
        exact ih hnd.2 p h

theorem takeWhile_map_fst (p : ℤ → Bool) :
    ∀ l : List (ℤ × ℕ),
      (l.map Prod.fst).takeWhile p = (l.takeWhile (fun q => p q.1)).map Prod.fst := by
  intro l
  induction l with
  | nil => rfl
  | cons q rest ih =>
      rw [List.map_cons, List.takeWhile_cons, List.takeWhile_cons]
      cases hq : p q.1 <;> simp [hq, ih]

theorem takeWhile_eq_filter_of_pairwise_keys (t : ℤ) :
    ∀ l : List (ℤ × ℕ), l.Pairwise (fun p q => p.1 < q.1) →
      l.takeWhile (fun q => decide (q.1 ≤ t)) = l.filter (fun q => decide (q.1 ≤ t)) := by
  intro l
  induction l with
  | nil => intro _; rfl
  | cons q rest ih =>
      intro hp
      rw [List.pairwise_cons] at hp
      rw [List.takeWhile_cons, List.filter_cons]
      by_cases hq : q.1 ≤ t
      · simp only [hq, decide_true_eq_true, if_pos]
        rw [ih hp.2]
      · have hq' : decide (q.1 ≤ t) = false := by
          simp [hq]
        rw [hq']
        simp only [Bool.false_eq_true, if_false]
        symm
        rw [List.filter_eq_nil_iff]
        intro r hr
        have hlt := hp.1 r hr
        simp only [decide_eq_true_eq]
        omega

/-- C4 (amended): `expectedPageByToday` equals the sum, over the days of the
range that are on or before `today`, of the pages assigned by the *original*
allocation `distributePagesAcrossDays(totalPages, start, end)` — it
recomputes that allocation from `totalPages` and the full date range and
never consults the sessions' current (post-redistribution) `plannedPages`. -/
theorem C4_expected_from_original_allocation (totalPages : ℕ) (s e today : ℤ) :
    expectedPageByToday totalPages s e today =
      (((distributePagesAcrossDays totalPages s e).filter
        (fun q => decide (q.1 ≤ today))).map Prod.snd).sum := by
  have hkeys : (distributePagesAcrossDays totalPages s e).map Prod.fst =
      getAllDaysInRange s e := by
    unfold distributePagesAcrossDays
    exact forEachIdx_pair_fst _ _ 0
  have hnodup : ((distributePagesAcrossDays totalPages s e).map Prod.fst).Nodup := by
    rw [hkeys]
    unfold getAllDaysInRange
    exact (rangeAux_pairwise_lt _ s).nodup
  have hpair : (distributePagesAcrossDays totalPages s e).Pairwise (fun p q => p.1 < q.1) := by
    have := rangeAux_pairwise_lt ((e + 1 - s).toNat) s
    rw [← getAllDaysInRange, ← hkeys, List.pairwise_map] at this
    exact this
  unfold expectedPageByToday
  show (List.map (fun d => (List.lookup d (distributePagesAcrossDays totalPages s e)).getD 0)
      ((getAllDaysInRange s e).takeWhile (fun d => decide (d ≤ today)))).sum = _
  rw [← hkeys, takeWhile_map_fst, List.map_map,
    takeWhile_eq_filter_of_pairwise_keys today _ hpair]
  congr 1
  apply List.map_congr_left
  intro q hq
  have hqmem : q ∈ distributePagesAcrossDays totalPages s e :=
    List.mem_of_mem_filter hq
  simp only [Function.comp_apply]
  rw [lookup_self_of_keys_nodup _ hnodup q hqmem]
  rfl

/-- C4 (counterexample): a 100-page book over days 1..10 whose sessions were
redistributed after day 1 was read with 20 actual pages (days 2..9 planned 9,
day 10 planned 8).  With today = day 2, the code's `expectedPageByToday`
returns 10 + 10 = 20 from the freshly recomputed original allocation, while
the walk over the sessions' current `plannedPages` described by the spec
yields 10 + 9 = 19. -/
theorem C4_counterexample :
    expectedPageByToday 100 1 10 2 = 20 ∧
    specExpectedPageByToday
      [⟨1, true, false, 10, some 20⟩, ⟨2, false, false, 9, none⟩, ⟨3, false, false, 9, none⟩,
        ⟨4, false, false, 9, none⟩, ⟨5, false, false, 9, none⟩, ⟨6, false, false, 9, none⟩,
        ⟨7, false, false, 9, none⟩, ⟨8, false, false, 9, none⟩, ⟨9, false, false, 9, none⟩,
        ⟨10, false, false, 8, none⟩] 1 10 2 = 19 ∧
    expectedPageByToday 100 1 10 2 ≠
      specExpectedPageByToday
        [⟨1, true, false, 10, some 20⟩, ⟨2, false, false, 9, none⟩, ⟨3, false, false, 9, none⟩,
          ⟨4, false, false, 9, none⟩, ⟨5, false, false, 9, none⟩, ⟨6, false, false, 9, none⟩,
          ⟨7, false, false, 9, none⟩, ⟨8, false, false, 9, none⟩, ⟨9, false, false, 9, none⟩,
          ⟨10, false, false, 8, none⟩] 1 10 2 := by
  decide

/-! ## Claim C7: no overdue report is ever produced -/

/-- C7 (amended): when today is after the plan's end date the component
returns no report at all (the `isAfter` guard fires before anything else);
and within the guard `remainingDays = |[today, end]| ≥ 1`, so the overdue
branch (`remainingDays <= 0`) is unreachable — `suggestion` never returns an
overdue report for any input. -/
theorem C7_overdue_unreachable_amended (totalPages : ℕ) (s e today : ℤ)
    (rows : List SessionRow) :
    (e < today → suggestion totalPages s e today rows = CatchUp.noReport) ∧
    ∀ r, suggestion totalPages s e today rows ≠ CatchUp.overdue r := by
  constructor
  · intro h
    unfold suggestion
    rw [if_pos h]
  · intro r
    simp only [suggestion]
    split_ifs with h1 h2 h3 h4
    · exact fun hh => CatchUp.noConfusion hh
    · exact fun hh => CatchUp.noConfusion hh
    · exact fun hh => CatchUp.noConfusion hh
    · rw [getAllDaysInRange_length] at h4
      omega
    · exact fun hh => CatchUp.noConfusion hh

/-- Witness for C7 (amended): an 80-page plan over days 1..5 evaluated at
day 7 yields no report. -/
theorem C7_overdue_unreachable_amended_witness :
    (5 : ℤ) < 7 ∧ suggestion 80 1 5 7 [] = CatchUp.noReport :=
  ⟨by decide, (C7_overdue_unreachable_amended 80 1 5 7 []).1 (by decide)⟩

/-- C7 (counterexample): a 50-page plan over days 1..5 with no sessions at
all, evaluated at day 6 (past the end): the component returns null — not the
`Overdue` report with `suggestedPages = totalPages = 50` the claim
requires. -/
theorem C7_counterexample :
    suggestion 50 1 5 6 [] = CatchUp.noReport ∧
    suggestion 50 1 5 6 [] ≠ CatchUp.overdue 50 := by
  decide

/-! ## Claim C8: the catch-up scenario -/

/-- C8: a 100-page plan over days 1..10 with no sessions (days 1-3 thereby
implicitly unset and past) evaluated with today = day 4 reports a catch-up
with 0 explicitly missed days, 3 past unread days, 100 remaining pages, 7
remaining days, and `suggestedPages = ceil(100 / 7) = 15`; the ceiling rule
itself is checked alongside. -/
theorem C8_catchup_scenario :
    suggestion 100 1 10 4 [] = CatchUp.catchup 0 3 100 7 15 ∧
    calculateCatchUpPages 100 0 7 = 15 := by
  decide

/-! ## Claim C9: effective pages and the falsy-zero fallback -/

/-- C9 (amended): for a read, non-missed session with a *nonzero*
`actualPages = a`, both the progress sums (`DaysView` and `getBooks`) and the
redistribution's accounted sum count exactly `a`; but a read session with
`actualPages = 0` contributes its `plannedPages`, because the JavaScript
`actualPages || plannedPages` treats 0 as falsy. -/
theorem C9_effective_pages_amended (p a : ℕ) :
    (a ≠ 0 →
      codeEffectivePages ⟨true, false, p, some a⟩ = a ∧
      daysViewTotalPagesRead [⟨true, false, p, some a⟩] = a ∧
      getBooksTotalPagesRead [⟨true, false, p, some a⟩] = a ∧
      redistAccounted [some ⟨true, false, p, some a⟩] 1 0 [] = a) ∧
    (codeEffectivePages ⟨true, false, p, some 0⟩ = p ∧
      daysViewTotalPagesRead [⟨true, false, p, some 0⟩] = p) := by
  constructor
  · intro ha
    refine ⟨?_, ?_, ?_, ?_⟩
    · simp [codeEffectivePages, jsOr, ha]
    · simp [daysViewTotalPagesRead, jsOr, ha]
    · simp [getBooksTotalPagesRead, jsOr, ha]
    · simp [redistAccounted, redistContrib, dayAt, codeEffectivePages, jsOr, ha,
        List.range_succ]
  · constructor
    · simp [codeEffectivePages, jsOr]
    · simp [daysViewTotalPagesRead, jsOr]

/-- Witness for C9 (amended) at `plannedPages = 9`, `actualPages = 4`. -/
theorem C9_effective_pages_amended_witness :
    (4 : ℕ) ≠ 0 ∧
    codeEffectivePages ⟨true, false, 9, some 4⟩ = 4 ∧
    daysViewTotalPagesRead [⟨true, false, 9, some 4⟩] = 4 ∧
    getBooksTotalPagesRead [⟨true, false, 9, some 4⟩] = 4 ∧
    redistAccounted [some ⟨true, false, 9, some 4⟩] 1 0 [] = 4 :=
  ⟨by decide,
    ((C9_effective_pages_amended 9 4).1 (by decide)).1,
    ((C9_effective_pages_amended 9 4).1 (by decide)).2.1,
    ((C9_effective_pages_amended 9 4).1 (by decide)).2.2.1,
    ((C9_effective_pages_amended 9 4).1 (by decide)).2.2.2⟩

/-- C9 (counterexample): a read day with `plannedPages = 7` and
`actualPages = 0` is counted as 7 pages by `totalPagesRead` (DaysView) and by
`getBooks`, not as the 0 pages the claim requires; the spec's
`actualPages ?? plannedPages` would give 0. -/
theorem C9_counterexample :
    daysViewTotalPagesRead [⟨true, false, 7, some 0⟩] = 7 ∧
    getBooksTotalPagesRead [⟨true, false, 7, some 0⟩] = 7 ∧
    specEffectivePages ⟨true, false, 7, some 0⟩ = 0 ∧
    daysViewTotalPagesRead [⟨true, false, 7, some 0⟩] ≠ 0 := by
  decide

/-! ## Claim C10: the sequential multi-book allocator -/

theorem distributePagesSequentiallyAux_valid (availableDays : ℕ) :
    ∀ (bs books : List (ℕ × ℕ)) (i c : ℕ),
      (∀ k, books.get? (i + k) = bs.get? k) → c ≤ availableDays →
      validSchedule books availableDays c
        (distributePagesSequentiallyAux availableDays bs i c) := by
  intro bs
  induction bs with
  | nil =>
      intro books i c _ _
      simp [distributePagesSequentiallyAux, validSchedule]
  | cons b rest ih =>
      intro books i c hk hc
      simp only [distributePagesSequentiallyAux]
      by_cases hd : min b.2 (availableDays - c) = 0
      · rw [if_pos hd]
        simp [validSchedule]
      · rw [if_neg hd]
        have hmin : min b.2 (availableDays - c) ≤ availableDays - c := Nat.min_le_right _ _
        have hd1 : 1 ≤ min b.2 (availableDays - c) := Nat.one_le_iff_ne_zero.mpr hd
        simp only [validSchedule]
        refine ⟨trivial, ?_, ?_, ?_, ?_⟩
        · omega
        · omega
        · refine ⟨b, ?_, ?_⟩
          · have h0 := hk 0
            simpa using h0
          · have harith : c + min b.2 (availableDays - c) - 1 - c + 1 =
                min b.2 (availableDays - c) := by
              omega
            rw [harith]
        · apply ih books (i + 1) (c + min b.2 (availableDays - c) - 1 + 1)
          · intro k
            have hk1 := hk (k + 1)
            rw [show i + (k + 1) = i + 1 + k from by omega] at hk1
            simpa using hk1
          · omega

/-- C10: for every book list (`(totalPages, days)` pairs) and every
`availableDays`, the schedule of `distributePagesSequentially` starts at day
0, its segments are contiguous and non-overlapping (each starts the day
after the previous one ends), every segment ends before `availableDays`,
spans at least one day (so no book receiving zero days appears), and carries
`pagesPerDay = ceil(bookPages / allottedDays)` for the book it indexes. -/
theorem C10_sequential_allocator (books : List (ℕ × ℕ)) (availableDays : ℕ) :
    validSchedule books availableDays 0 (distributePagesSequentially books availableDays) :=
  distributePagesSequentiallyAux_valid availableDays books books 0 0
    (fun k => by simp) (Nat.zero_le _)
